import Mathlib

/-! # musikbox: transport readout and now-playing queue editing

A shallow embedding of `src/musikbox/app/window/TransportWindow.cpp` and
`src/musikbox/app/layout/NowPlayingLayout.cpp`.

Conventions of the embedding:

* a `std::string` holding UTF-8 text is the list of its code points (`Str`).  The tokenizer
  compares bytes only against the ASCII characters `$` and space, which never occur inside a
  multi-byte UTF-8 sequence, so splitting by code point and splitting by byte agree;
* `size_t` is a natural number below `SIZE_MOD = 2^64`, with wrapping subtraction `subSize`;
* the curses window is the list of spans written to it, each with the text passed to
  `wprintw` and a flag telling whether an attribute was switched on around it.
-/

namespace Musikbox

/-- A `std::string`, as the list of its code points. -/
abbrev Str := List Char

/-- The modulus of `size_t` arithmetic (64-bit). -/
def SIZE_MOD : Nat := 18446744073709551616

/-- Subtraction of two `size_t` values, wrapping on underflow. -/
def subSize (a b : Nat) : Nat := (a + SIZE_MOD - b % SIZE_MOD) % SIZE_MOD

/-! ## Tokens (`TransportWindow.cpp`, lines 73-120) -/

/-- The enum `Token::Type`. -/
inductive TokenType where
  | Normal
  | Placeholder
  deriving DecidableEq, Repr

/-- The struct `Token`. -/
structure Token where
  value : Str
  type : TokenType
  deriving DecidableEq, Repr

/-- The call `format.substr(pos, len)`. -/
def substr (format : Str) (pos len : Nat) : Str := (format.drop pos).take len

/-- The byte read by `format[i]` (the index is in range wherever the code reads it). -/
def charAt (format : Str) (i : Nat) : Char := format.getD i (Char.ofNat 0)

/-- The local variables of `tokenize`: the cursor `i`, the start of the current run, the type
of the current run and the tokens pushed so far. -/
structure TokenizeState where
  i : Nat
  start : Nat
  type : TokenType
  tokens : List Token
  deriving DecidableEq, Repr

/-- One iteration of the `while` body of `tokenize` (lines 99-114), entered with
`i < format.size()`. -/
def tokenizeStep (format : Str) (s : TokenizeState) : TokenizeState :=
  let c := charAt format s.i
  if (s.type = TokenType.Placeholder ∧ c = ' ') ∨ (s.type = TokenType.Normal ∧ c = '$') then
    if c = '$' ∧ s.i < format.length - 1 ∧ charAt format (s.i + 1) = '$' then
      -- escape $ with $$: `i++`, then the `++i` that ends the iteration
      { s with i := s.i + 1 + 1 }
    else
      { i := s.i + 1
        start := s.i
        type := if c = ' ' then TokenType.Normal else TokenType.Placeholder
        tokens :=
          if s.i > s.start then
            s.tokens ++ [⟨substr format s.start (s.i - s.start), s.type⟩]
          else s.tokens }
  else
    { s with i := s.i + 1 }

/-- The loop `while (i < format.size())` of `tokenize`, run for at most `fuel` iterations. -/
def tokenizeLoop (format : Str) : Nat → TokenizeState → TokenizeState
  | 0, s => s
  | fuel + 1, s =>
    if s.i < format.length then tokenizeLoop format fuel (tokenizeStep format s) else s

/-- The state in which `tokenize` enters its loop (lines 94-97). -/
def tokenizeInit : TokenizeState :=
  { i := 0, start := 0, type := TokenType.Normal, tokens := [] }

/-- The function `tokenize(format, tokens)`: the token list it leaves in `tokens`.  Every
iteration advances `i`, so `format.size()` iterations are enough for the loop to exit
(`tokenizeLoop_exits`). -/
def tokenize (format : Str) : List Token :=
  let s := tokenizeLoop format format.length tokenizeInit
  if s.i > 0 then
    s.tokens ++ [⟨substr format s.start (s.i - s.start), s.type⟩]
  else s.tokens

/-! ## The playing readout (`TransportWindow.cpp`, lines 122-178) -/

/-- The two helpers of `cursespp/Text.h` that `writePlayingFormat` calls and whose bodies are
not part of the sources: the display length `u8len` and `text::Ellipsize`.  The renderer is
parameterised over them. -/
structure Text where
  u8len : Str → Nat
  Ellipsize : Str → Nat → Str

/-- Modelled from the spec: `u8len`, "a width-aware length function that counts multi-byte
characters as one cell (never raw byte count)": the number of code points. -/
def u8len (value : Str) : Nat := value.length

/-- Modelled from the spec: `text::Ellipsize`, which is to "truncate it to fit, replacing the
tail with a visual ellipsis marker within the same budget": a value wider than `len` cells
keeps its first `len - 1` characters, followed by the one-cell marker `…`. -/
def Ellipsize (value : Str) (len : Nat) : Str :=
  if u8len value > len then value.take (len - 1) ++ ['…'] else value

/-- Modelled from the spec: the text helpers of `cursespp/Text.h` as section 4.1 describes
them. -/
def cursesText : Text := { u8len := u8len, Ellipsize := Ellipsize }

/-- One `wprintw` of the renderer: the text handed to it and whether it was wrapped in
`wattron(w, attr)` / `wattroff(w, attr)`, that is whether `attr != -1`.  The text is the
argument of the call, which `wprintw` reads as a `printf` format; what the window then shows
is given by `printfText`. -/
structure Span where
  text : Str
  styled : Bool
  deriving DecidableEq, Repr

/-- Lines 140-155 of `writePlayingFormat`: the value a token resolves to.  `value` starts
empty, a placeholder named `$title` or `$album` sets it, and an empty value falls back to the
token's own text. -/
def resolveValue (title album : Str) (token : Token) : Str :=
  let value : Str :=
    if token.type = TokenType.Placeholder then
      if token.value = "$title".toList then title
      else if token.value = "$album".toList then album
      else []
    else []
  if value.length = 0 then token.value else value

/-- The state of the `while` loop of `writePlayingFormat`: the `remaining` budget and the
spans written so far, together with a record of every `remaining -= len` as the pair
(budget before the subtraction, `len`). -/
structure WriteState where
  remaining : Nat
  spans : List Span
  budget : List (Nat × Nat)
  deriving DecidableEq, Repr

/-- The loop `while (it != tokens.end() && remaining > 0)` of `writePlayingFormat`
(lines 137-175), over the tokens not yet visited. -/
def writeLoop (T : Text) (title album : Str) : List Token → WriteState → WriteState
  | [], s => s
  | token :: rest, s =>
    if s.remaining > 0 then
      let value := resolveValue title album token
      let len := T.u8len value
      let value := if len > s.remaining then T.Ellipsize value s.remaining else value
      let len := if len > s.remaining then s.remaining else len
      writeLoop T title album rest
        { remaining := subSize s.remaining len
          spans := s.spans ++ [⟨value, decide (token.type = TokenType.Placeholder)⟩]
          budget := s.budget ++ [(s.remaining, len)] }
    else s

/-- What `writePlayingFormat` returns and what it wrote to the window. -/
structure WriteResult where
  written : Nat
  spans : List Span
  budget : List (Nat × Nat)
  deriving DecidableEq, Repr

/-- The function `writePlayingFormat(w, title, album, width)`.  The file-level variable
`playingFormat` it tokenizes is the argument `format`. -/
def writePlayingFormat (T : Text) (format title album : Str) (width : Nat) : WriteResult :=
  let s := writeLoop T title album (tokenize format) { remaining := width, spans := [], budget := [] }
  { written := subSize width s.remaining, spans := s.spans, budget := s.budget }

/-- The initial value of the file-level variable `playingFormat` (line 71). -/
def playingFormat : Str := "playing $title from $album".toList

/-- The texts handed to `wprintw` by a call (line 167), concatenated. -/
def emittedText (r : WriteResult) : Str := (r.spans.map Span.text).flatten

/-- What `wprintw(w, fmt)` writes when it is given the format and no further argument, as in
line 167: an ordinary character is written as it is and `%%` is written as a single `%`; any
other `%` starts a conversion that reads an argument which was not passed, and what is
written then is undefined (`none`). -/
def printfText : Str → Option Str
  | [] => some []
  | c :: rest =>
    if c = '%' then
      match rest with
      | d :: rest2 => if d = '%' then (printfText rest2).map (fun text => '%' :: text) else none
      | [] => none
    else (printfText rest).map (fun text => c :: text)

/-- What the window shows for a sequence of spans, each written by its own `wprintw`. -/
def shownSpans : List Span → Option Str
  | [] => some []
  | span :: rest =>
    match printfText span.text, shownSpans rest with
    | some text, some texts => some (text ++ texts)
    | _, _ => none

/-- What the window shows after a call of `writePlayingFormat`. -/
def shownText (r : WriteResult) : Option Str := shownSpans r.spans

/-- The sum of the display widths of the resolved token values of a format. -/
def resolvedWidth (T : Text) (format title album : Str) : Nat :=
  ((tokenize format).map (fun token => T.u8len (resolveValue title album token))).sum

/-! ## The now-playing layout (`NowPlayingLayout.cpp`) -/

/-- The conversion of an integer value to a 32-bit `int` (the casts `(int) x`). -/
def toInt (x : Int) : Int := (x + 2147483648) % 4294967296 - 2147483648

/-- The conversion of an `int` to `size_t` (an `int` passed where a `size_t` is expected). -/
def toSizeT (x : Int) : Nat := (x % (SIZE_MOD : Int)).toNat

/-- The value `(size_t) -1`, which the engine and the list use for "no index". -/
def NO_INDEX : Nat := SIZE_MOD - 1

/-- The set `EDIT_KEYS` (line 57). -/
def EDIT_KEYS : List String := ["M-up", "M-down", "KEY_BACKSPACE", "KEY_DC"]

/-- What `trackList->GetScrollPosition()` returns, as far as the layout reads it. -/
structure ScrollPosition where
  firstVisibleEntryIndex : Nat
  visibleEntryCount : Nat
  deriving DecidableEq, Repr

/-- A call made on the `PlaybackService::Editor`. -/
inductive EditorCall where
  | Move (fromIndex toIndex : Nat)
  | Delete (index : Nat)
  deriving DecidableEq, Repr

/-- The state a `NowPlayingLayout` works on: the playback service (`queue`, `shuffled`,
`playIndex`), the track list view (`tracks`, `selectedIndex`, `scrollPosition`), the member
`reselectIndex`, and a record of the calls made on collaborators (`editorCalls`,
`scrollCalls`, and the number of `Requery` calls in `requeries`). -/
structure NowPlayingLayout (Track : Type) where
  queue : List Track
  shuffled : Bool
  playIndex : Nat
  tracks : List Track
  selectedIndex : Nat
  scrollPosition : ScrollPosition
  reselectIndex : Int
  editorCalls : List EditorCall
  scrollCalls : List Nat
  requeries : Nat
  deriving DecidableEq, Repr

/-- Modelled from the spec: the queue operation `moveEntry(from, to)` behind
`PlaybackService::Editor::Move`, whose body is not part of the sources: the entry at `from`
is taken out of the queue and put back at position `to`; a move between indices that are not
both rows of the queue changes nothing. -/
def moveEntry {Track : Type} (queue : List Track) (fromIndex toIndex : Nat) : List Track :=
  match queue[fromIndex]? with
  | some track =>
    if toIndex < queue.length then
      (queue.eraseIdx fromIndex).take toIndex ++ track :: (queue.eraseIdx fromIndex).drop toIndex
    else queue
  | none => queue

/-- Modelled from the spec: the queue operation `deleteEntry(index)` behind
`PlaybackService::Editor::Delete`, whose body is not part of the sources: the entry at
`index` is removed. -/
def deleteEntry {Track : Type} (queue : List Track) (index : Nat) : List Track :=
  queue.eraseIdx index

/-- The call `editor.Move(from, to)`.  How the engine's playing index follows an edit is not
described; it is left as it is, and no statement below depends on it. -/
def editorMove {Track : Type} (s : NowPlayingLayout Track) (fromIndex toIndex : Nat) :
    NowPlayingLayout Track :=
  { s with
    queue := moveEntry s.queue fromIndex toIndex
    editorCalls := s.editorCalls ++ [EditorCall.Move fromIndex toIndex] }

/-- The call `editor.Delete(index)`. -/
def editorDelete {Track : Type} (s : NowPlayingLayout Track) (index : Nat) :
    NowPlayingLayout Track :=
  { s with
    queue := deleteEntry s.queue index
    editorCalls := s.editorCalls ++ [EditorCall.Delete index] }

/-- Modelled from the spec: `trackList->SetSelectedIndex(index)`, whose body is not part of
the sources: "set SelectionState.selectedIndex to that target". -/
def SetSelectedIndex {Track : Type} (s : NowPlayingLayout Track) (index : Nat) :
    NowPlayingLayout Track :=
  { s with selectedIndex := index }

/-- Modelled from the spec: `trackList->ScrollTo(index)`, whose body is not part of the
sources: "scroll so the target index becomes the first visible row".  The call is recorded
in `scrollCalls`. -/
def ScrollTo {Track : Type} (s : NowPlayingLayout Track) (index : Nat) :
    NowPlayingLayout Track :=
  { s with
    scrollPosition := { s.scrollPosition with firstVisibleEntryIndex := index }
    scrollCalls := s.scrollCalls ++ [index] }

/-- The method `NowPlayingLayout::RequeryTrackList` (lines 137-140): it hands a new query to
the track list, which runs it asynchronously. -/
def RequeryTrackList {Track : Type} (s : NowPlayingLayout Track) : NowPlayingLayout Track :=
  { s with requeries := s.requeries + 1 }

/-- The method `NowPlayingLayout::OnTrackListRequeried` (lines 107-131).  In line 118 the sum
`(int) first + pos.visibleEntryCount` is formed in `size_t` and narrowed to `int`; since
`2^32` divides `2^64` that is the narrowing of the integer sum. -/
def OnTrackListRequeried {Track : Type} (s : NowPlayingLayout Track) : NowPlayingLayout Track :=
  let s1 :=
    if s.queue.length ≠ 0 then
      let s2 :=
        if s.reselectIndex = -1 then
          let index := s.playIndex
          let s3 := SetSelectedIndex s (if index = NO_INDEX then 0 else index)
          ScrollTo s3 (if index = 0 then index else subSize index 1)
        else
          let s3 := SetSelectedIndex s (toSizeT (toInt s.reselectIndex))
          let pos := s3.scrollPosition
          let first := toInt pos.firstVisibleEntryIndex
          let last := toInt (first + pos.visibleEntryCount)
          let index := toInt s.reselectIndex
          if index < first ∨ index ≥ last then ScrollTo s3 (toSizeT s.reselectIndex) else s3
      if s2.selectedIndex = NO_INDEX then SetSelectedIndex s2 0 else s2
    else s
  { s1 with reselectIndex := -1 }

/-- Modelled from the spec: the completion of a requery, which is not part of the sources:
the "fetch of the current queue" replaces the rows of the track list, and "on completion it
calls reconcile()", the handler connected to `Requeried` in line 92. -/
def requeryCompleted {Track : Type} (s : NowPlayingLayout Track) : NowPlayingLayout Track :=
  OnTrackListRequeried { s with tracks := s.queue }

/-- The method `NowPlayingLayout::ProcessEditOperation` (lines 154-185): the value it returns
and the state it leaves. -/
def ProcessEditOperation {Track : Type} (s : NowPlayingLayout Track) (key : String) :
    Bool × NowPlayingLayout Track :=
  if key ∈ EDIT_KEYS then
    if ¬ s.shuffled then
      let selected := s.selectedIndex
      let s1 :=
        if key = "M-up" then
          if selected > 0 then
            let toIndex := subSize selected 1
            { editorMove s selected toIndex with reselectIndex := toInt toIndex }
          else s
        else if key = "M-down" then
          if selected < subSize s.queue.length 1 then
            let toIndex := (selected + 1) % SIZE_MOD
            { editorMove s selected toIndex with reselectIndex := toInt toIndex }
          else s
        else if key = "KEY_BACKSPACE" ∨ key = "KEY_DC" then
          { editorDelete s selected with reselectIndex := toInt selected }
        else s
      (true, RequeryTrackList s1)
    else (false, s)
  else (false, s)

/-- A layout over the given queue with the given row selected, the list showing the queue,
nothing pending and nothing recorded. -/
def layoutOf {Track : Type} (queue : List Track) (selected : Nat) : NowPlayingLayout Track :=
  { queue := queue, shuffled := false, playIndex := 0, tracks := queue,
    selectedIndex := selected, scrollPosition := ⟨0, 10⟩, reselectIndex := -1,
    editorCalls := [], scrollCalls := [], requeries := 0 }

/-! ## The sliders of the transport readout (`TransportWindow::Update`, lines 274-327) -/

/-- The thumb cell `■` of a slider. -/
def thumbCell : Char := '■'

/-- The track cell `─` of a slider. -/
def trackCell : Char := '─'

/-- Line 276: `int volumePercent = (size_t) round(Volume() * 100.0f) - 1`, as a function of
the rounded percentage `percent = (size_t) round(Volume() * 100.0f)`: the subtraction is made
in `size_t` and the result narrowed to `int`. -/
def volumePercent (percent : Nat) : Int := toInt ((subSize percent 1 : Nat) : Int)

/-- Line 277: `std::min(9, (volumePercent * 10) / 100)`, with the truncating division of
`int`. -/
def volumeThumbOffset (percent : Nat) : Int :=
  min 9 (Int.tdiv (volumePercent percent * 10) 100)

/-- Lines 281-283: the ten cells of the volume bar, a thumb where `i == thumbOffset`. -/
def volumeCells (percent : Nat) : Str :=
  (List.range 10).map (fun (i : Nat) =>
    if (i : Int) = volumeThumbOffset percent then thumbCell else trackCell)

/-- Lines 279-285: the string `volume`: the label `vol `, the ten cells and two blanks. -/
def volumeText (percent : Nat) : Str := "vol ".toList ++ volumeCells percent ++ "  ".toList

/-- Lines 310-315: `timerWidth`, computed in `size_t` from the content width, the display
length of `volume` and the sizes of the two time texts. -/
def timerWidth (contentWidth : Nat) (volume currentTime totalTime : Str) : Nat :=
  subSize (subSize (subSize (subSize contentWidth (u8len volume)) currentTime.length)
    totalTime.length) 2

/-- Line 320: `size_t progress = (secondsCurrent * 100) / secondsTotal`: a product and a
truncating division of `int` (the product wraps as on the target when it leaves the range
of `int`), converted to `size_t`. -/
def progress (secondsCurrent secondsTotal : Int) : Nat :=
  toSizeT (Int.tdiv (toInt (secondsCurrent * 100)) secondsTotal)

/-- Lines 317-322: the `int thumbOffset` of the time slider: 0 unless `secondsTotal` is
non-zero, and then `std::min(timerWidth - 1, (progress * timerWidth) / 100)`, computed in
`size_t` and narrowed to `int`. -/
def timeThumbOffset (width : Nat) (secondsCurrent secondsTotal : Int) : Int :=
  if secondsTotal ≠ 0 then
    toInt ((min (subSize width 1)
      ((progress secondsCurrent secondsTotal * width) % SIZE_MOD / 100) : Nat) : Int)
  else 0

/-- Lines 324-327: the string `timerTrack`: `timerWidth` cells, a thumb where the `size_t`
counter `i` equals `thumbOffset` (converted to `size_t` for the comparison). -/
def timerTrack (width : Nat) (thumbOffset : Int) : Str :=
  (List.range width).map (fun i => if i = toSizeT thumbOffset then thumbCell else trackCell)

/-- What the slider part of `Update` computes. -/
structure Readout where
  volume : Str
  elapsed : Int
  currentTime : Str
  totalTime : Str
  timerWidth : Nat
  thumbOffset : Int
  timerTrack : Str

/-- The slider part of `TransportWindow::Update` (lines 274-327), as a function of the
content width, the rounded volume percentage, the rounded position `secondsCurrent` and the
track's `secondsTotal`.  The formatter `duration::Duration`, whose body is not part of the
sources, is the argument `Duration`; `elapsed` is the value handed to it for `currentTime`
(line 307). -/
def Update (Duration : Int → Str) (contentWidth percent : Nat)
    (secondsCurrent secondsTotal : Int) : Readout :=
  let volume := volumeText percent
  let elapsed := min secondsCurrent secondsTotal
  let currentTime := Duration elapsed
  let totalTime := Duration secondsTotal
  let width := timerWidth contentWidth volume currentTime totalTime
  let thumbOffset := timeThumbOffset width secondsCurrent secondsTotal
  { volume := volume, elapsed := elapsed, currentTime := currentTime, totalTime := totalTime,
    timerWidth := width, thumbOffset := thumbOffset,
    timerTrack := timerTrack width thumbOffset }

/-! ## The refresh messages of the transport window (`TransportWindow.cpp`, lines 64-69 and
201-231) -/

/-- The constant `REFRESH_TRANSPORT_READOUT`. -/
def REFRESH_TRANSPORT_READOUT : Nat := 1001

/-- The constant `REFRESH_INTERVAL_MS`. -/
def REFRESH_INTERVAL_MS : Nat := 500

/-- A message waiting in the queue: its type and the delay it was posted with. -/
structure Message where
  type : Nat
  delay : Nat
  deriving DecidableEq, Repr

/-- The state of a `TransportWindow` as far as refreshing goes: the messages it has pending
in the message queue, the member `focused`, and the number of calls of `Update` so far. -/
structure TransportWindow where
  messages : List Message
  focused : Bool
  updates : Nat
  deriving DecidableEq, Repr

/-- Modelled from the spec: `Window::RemoveMessage(type)`, whose body is not part of the
sources: it "cancels" every pending message of that type ("removing-then-reposting a pending
message"). -/
def RemoveMessage (s : TransportWindow) (type : Nat) : TransportWindow :=
  { s with messages := s.messages.filter (fun message => decide (message.type ≠ type)) }

/-- Modelled from the spec: `Window::PostMessage(type, 0, 0, delay)`, whose body is not part
of the sources: the message joins the pending ones. -/
def PostMessage (s : TransportWindow) (type delay : Nat) : TransportWindow :=
  { s with messages := s.messages ++ [⟨type, delay⟩] }

/-- The macro `DEBOUNCE_REFRESH(x)` (lines 67-69). -/
def DEBOUNCE_REFRESH (s : TransportWindow) (x : Nat) : TransportWindow :=
  PostMessage (RemoveMessage s REFRESH_TRANSPORT_READOUT) REFRESH_TRANSPORT_READOUT x

/-- The method `TransportWindow::ProcessMessage` (lines 201-208); the call of `Update` is
counted in `updates`. -/
def ProcessMessage (s : TransportWindow) (message : Message) : TransportWindow :=
  if message.type = REFRESH_TRANSPORT_READOUT then
    DEBOUNCE_REFRESH { s with updates := s.updates + 1 } REFRESH_INTERVAL_MS
  else s

/-- The method `TransportWindow::OnPlaybackServiceTrackChanged` (lines 210-213); the member
`currentTrack` it sets plays no part in refreshing. -/
def OnPlaybackServiceTrackChanged (s : TransportWindow) : TransportWindow :=
  DEBOUNCE_REFRESH s 0

/-- The method `TransportWindow::OnTransportVolumeChanged` (lines 215-217). -/
def OnTransportVolumeChanged (s : TransportWindow) : TransportWindow :=
  DEBOUNCE_REFRESH s 0

/-- The method `TransportWindow::OnTransportTimeChanged` (lines 219-221). -/
def OnTransportTimeChanged (s : TransportWindow) : TransportWindow :=
  DEBOUNCE_REFRESH s 0

/-- The method `TransportWindow::Focus` (lines 223-226). -/
def Focus (s : TransportWindow) : TransportWindow :=
  DEBOUNCE_REFRESH { s with focused := true } 0

/-- The method `TransportWindow::Blur` (lines 228-231). -/
def Blur (s : TransportWindow) : TransportWindow :=
  DEBOUNCE_REFRESH { s with focused := false } 0

/-- Modelled from the spec: the message loop, which is not part of the sources, delivering
the pending message at position `k`: messages are "processed one at a time", the message is
taken off the queue and handed to `ProcessMessage`. -/
def deliver (s : TransportWindow) (k : Nat) : TransportWindow :=
  match s.messages[k]? with
  | some message => ProcessMessage { s with messages := s.messages.eraseIdx k } message
  | none => s

/-- What can happen to a transport window: one of the five refresh triggers, or the delivery
of the pending message at a position of the queue. -/
inductive Event where
  | trackChanged
  | volumeChanged
  | timeChanged
  | focus
  | blur
  | delivered (k : Nat)
  deriving DecidableEq, Repr

/-- The effect of one event. -/
def step (s : TransportWindow) : Event → TransportWindow
  | Event.trackChanged => OnPlaybackServiceTrackChanged s
  | Event.volumeChanged => OnTransportVolumeChanged s
  | Event.timeChanged => OnTransportTimeChanged s
  | Event.focus => Focus s
  | Event.blur => Blur s
  | Event.delivered k => deliver s k

/-- The effect of a sequence of events, in order. -/
def run (s : TransportWindow) (events : List Event) : TransportWindow :=
  events.foldl step s

/-- The pending `REFRESH_TRANSPORT_READOUT` messages of a window. -/
def pendingRefresh (s : TransportWindow) : List Message :=
  s.messages.filter (fun message => decide (message.type = REFRESH_TRANSPORT_READOUT))

/-- Whether an event is one of the five refresh triggers. -/
def Event.isTrigger : Event → Bool
  | Event.delivered _ => false
  | _ => true

/-! ## Predicates used in the statements -/

/-- The loop invariant of `tokenize`: the cursor is inside the format, the current run starts
at or before it (strictly before once the cursor has moved), and the tokens pushed so far
spell the format up to the start of the current run. -/
structure TokenizeInv (format : Str) (s : TokenizeState) : Prop where
  start_le : s.start ≤ s.i
  i_le : s.i ≤ format.length
  joined : (s.tokens.map Token.value).flatten = format.take s.start
  started : s.start < s.i ∨ s.i = 0
  nonempty : ∀ token ∈ s.tokens, token.value ≠ []

/-- The widths of the values the tokens resolve to. -/
def resolvedWidths (T : Text) (title album : Str) (tokens : List Token) : List Nat :=
  tokens.map (fun token => T.u8len (resolveValue title album token))

/-- What the record of subtractions says about a state: as many spans as subtractions, and
every subtraction took at most the budget left, which was positive. -/
def BudgetOk (s : WriteState) : Prop :=
  s.spans.length = s.budget.length ∧ ∀ p ∈ s.budget, 0 < p.1 ∧ p.2 ≤ p.1

/-- The value a token stands for, in the words of the claim: a placeholder token equal to
`$title` is replaced by the title, one equal to `$album` by the album, and every other token
(literal text, or a placeholder of any other name) is its own raw text. -/
def expandToken (title album : Str) (token : Token) : Str :=
  if token.type = TokenType.Placeholder ∧ token.value = "$title".toList then title
  else if token.type = TokenType.Placeholder ∧ token.value = "$album".toList then album
  else token.value

/-- The format with its placeholders replaced: the text a render of unlimited width is to
produce. -/
def expandFormat (format title album : Str) : Str :=
  ((tokenize format).map (expandToken title album)).flatten

/-- What a move of the selected track of `s` to row `dest` by the key `key` amounts to: the
key is handled, the editor is asked for exactly that move and a requery is issued; in the
queue the selected track is at `dest`, its neighbour has taken its place and every other row
is where it was; `reselectIndex` is `dest`; and once the requery has completed the selected
index is `dest` and the row there is the track that was selected before the move. -/
def MovedTo {Track : Type} (s : NowPlayingLayout Track) (key : String) (dest : Nat) : Prop :=
  (ProcessEditOperation s key).1 = true ∧
  (ProcessEditOperation s key).2.editorCalls
    = s.editorCalls ++ [EditorCall.Move s.selectedIndex dest] ∧
  (ProcessEditOperation s key).2.requeries = s.requeries + 1 ∧
  (ProcessEditOperation s key).2.queue.length = s.queue.length ∧
  (ProcessEditOperation s key).2.queue[dest]? = s.queue[s.selectedIndex]? ∧
  (ProcessEditOperation s key).2.queue[s.selectedIndex]? = s.queue[dest]? ∧
  (∀ j, j ≠ s.selectedIndex → j ≠ dest →
    (ProcessEditOperation s key).2.queue[j]? = s.queue[j]?) ∧
  (ProcessEditOperation s key).2.reselectIndex = (dest : Int) ∧
  (requeryCompleted (ProcessEditOperation s key).2).selectedIndex = dest ∧
  (requeryCompleted (ProcessEditOperation s key).2).tracks[dest]?
    = s.queue[s.selectedIndex]? ∧
  (s.queue[s.selectedIndex]?).isSome = true

/-- What claim C7 says of a delete key pressed on the state `s` with row `i` selected: the
key is handled, the editor is asked to delete row `i` and the queue loses that entry;
`reselectIndex` is `i`; and once the requery has completed the selected index is `i` and
there is a row at position `i` of the shortened queue, which is the selected row. -/
def DeletedAndReselected {Track : Type} (s : NowPlayingLayout Track) (key : String) : Prop :=
  (ProcessEditOperation s key).1 = true ∧
  (ProcessEditOperation s key).2.editorCalls
    = s.editorCalls ++ [EditorCall.Delete s.selectedIndex] ∧
  (ProcessEditOperation s key).2.queue = s.queue.eraseIdx s.selectedIndex ∧
  (ProcessEditOperation s key).2.reselectIndex = (s.selectedIndex : Int) ∧
  (requeryCompleted (ProcessEditOperation s key).2).selectedIndex = s.selectedIndex ∧
  (requeryCompleted (ProcessEditOperation s key).2).tracks
    = s.queue.eraseIdx s.selectedIndex ∧
  ((requeryCompleted (ProcessEditOperation s key).2).tracks[s.selectedIndex]?).isSome = true

/-- What is asked of a single token: its text is non-empty, and a placeholder starts with
`$` and contains no space. -/
def TokenOk (token : Token) : Prop :=
  token.value ≠ [] ∧
  (token.type = TokenType.Placeholder →
    token.value.head? = some '$' ∧ ' ' ∉ token.value)

/-- What is asked of two consecutive tokens: their types differ, and the token after a
placeholder (a literal, then) starts with a space. -/
def Alternates (a b : Token) : Prop :=
  a.type ≠ b.type ∧ (a.type = TokenType.Placeholder → b.value.head? = some ' ')

/-- A well-formed token list: every token is as `TokenOk` asks and every two consecutive
tokens are as `Alternates` asks. -/
def WellFormed (tokens : List Token) : Prop :=
  (∀ token ∈ tokens, TokenOk token) ∧ List.Chain' Alternates tokens

/-- A second loop invariant of `tokenize`, about the shape of the tokens: the tokens pushed
so far are well formed and the last of them is not of the type of the current run; nothing
is pushed before the cursor moves; a placeholder run is non-empty, starts with `$` and has
no space so far; and a literal run that follows a token starts with a space. -/
structure TokenizeShape (format : Str) (s : TokenizeState) : Prop where
  wellFormed : WellFormed s.tokens
  last : ∀ token ∈ s.tokens.getLast?, token.type ≠ s.type
  fresh : s.i = 0 → s.tokens = []
  placeholder : s.type = TokenType.Placeholder →
    s.start < s.i ∧ charAt format s.start = '$' ∧
      ∀ k, s.start ≤ k → k < s.i → charAt format k ≠ ' '
  normal : s.type = TokenType.Normal → s.tokens ≠ [] → charAt format s.start = ' '

/-! ## Facts about `tokenize` -/

theorem length_substr (format : Str) (pos len : Nat) :
    (substr format pos len).length = min len (format.length - pos) := by
  simp [substr]

theorem substr_ne_nil (format : Str) (pos len : Nat) (hlen : 0 < len)
    (hpos : pos < format.length) : substr format pos len ≠ [] := by
  intro h
  have := length_substr format pos len
  rw [h] at this
  simp only [List.length_nil] at this
  omega

theorem take_append_substr (format : Str) (start i : Nat) (h : start ≤ i) :
    format.take start ++ substr format start (i - start) = format.take i := by
  have h2 : i = start + (i - start) := by omega
  conv_rhs => rw [h2, List.take_add]
  rfl

theorem tokenizeInv_init (format : Str) : TokenizeInv format tokenizeInit :=
  ⟨Nat.le_refl _, Nat.zero_le _, by simp [tokenizeInit], Or.inr rfl, by simp [tokenizeInit]⟩

theorem tokenizeStep_i (format : Str) (s : TokenizeState) :
    s.i < (tokenizeStep format s).i := by
  unfold tokenizeStep
  dsimp only
  split_ifs <;> dsimp only <;> omega

theorem tokenizeInv_step (format : Str) (s : TokenizeState) (hinv : TokenizeInv format s)
    (hlt : s.i < format.length) : TokenizeInv format (tokenizeStep format s) := by
  obtain ⟨h1, h2, h3, h4, h5⟩ := hinv
  unfold tokenizeStep
  dsimp only
  split_ifs <;> refine ⟨?_, ?_, ?_, ?_, ?_⟩ <;> dsimp only <;>
    first
    | omega
    | exact h3
    | exact h5
    | (intro token hmem
       rcases List.mem_append.mp hmem with hold | hnew
       · exact h5 token hold
       · rw [List.mem_singleton.mp hnew]
         exact substr_ne_nil format s.start (s.i - s.start) (by omega) (by omega))
    | (have hs : s.start = s.i := by omega
       rw [← hs]
       exact h3)
    | (simp only [List.map_append, List.flatten_append, List.map_cons, List.map_nil,
        List.flatten_cons, List.flatten_nil, List.append_nil, h3]
       exact take_append_substr format s.start s.i h1)

theorem tokenizeInv_loop (format : Str) (fuel : Nat) (s : TokenizeState)
    (hinv : TokenizeInv format s) : TokenizeInv format (tokenizeLoop format fuel s) := by
  induction fuel generalizing s with
  | zero => exact hinv
  | succ fuel ih =>
    unfold tokenizeLoop
    split_ifs with hlt
    · exact ih _ (tokenizeInv_step format s hinv hlt)
    · exact hinv

/-- The loop of `tokenize` leaves through its condition when given `format.size() - i`
iterations: the fuel is never what stops it. -/
theorem tokenizeLoop_exits (format : Str) (fuel : Nat) (s : TokenizeState)
    (hfuel : format.length - s.i ≤ fuel) :
    format.length ≤ (tokenizeLoop format fuel s).i := by
  induction fuel generalizing s with
  | zero => simp only [tokenizeLoop]; omega
  | succ fuel ih =>
    unfold tokenizeLoop
    split_ifs with hlt
    · apply ih
      have := tokenizeStep_i format s
      omega
    · omega

/-- More fuel than needed changes nothing: once the cursor is at the end the loop is over. -/
theorem tokenizeLoop_done (format : Str) (fuel : Nat) (s : TokenizeState)
    (hdone : format.length ≤ s.i) : tokenizeLoop format fuel s = s := by
  cases fuel with
  | zero => rfl
  | succ fuel => simp [tokenizeLoop, Nat.not_lt.mpr hdone]

theorem tokenize_final (format : Str) :
    TokenizeInv format (tokenizeLoop format format.length tokenizeInit) ∧
      (tokenizeLoop format format.length tokenizeInit).i = format.length := by
  have hinv := tokenizeInv_loop format format.length tokenizeInit (tokenizeInv_init format)
  have hex := tokenizeLoop_exits format format.length tokenizeInit (by simp [tokenizeInit])
  exact ⟨hinv, Nat.le_antisymm hinv.i_le hex⟩

theorem tokenize_values_flatten (format : Str) :
    ((tokenize format).map Token.value).flatten = format := by
  obtain ⟨hinv, hi⟩ := tokenize_final format
  unfold tokenize
  dsimp only
  split_ifs with hpos
  · simp only [List.map_append, List.flatten_append, List.map_cons, List.map_nil,
      List.flatten_cons, List.flatten_nil, List.append_nil, hinv.joined]
    rw [take_append_substr format _ _ hinv.start_le, hi]
    exact List.take_of_length_le (Nat.le_refl _)
  · have h0 : format.length = 0 := by omega
    have hs : (tokenizeLoop format format.length tokenizeInit).start = 0 := by
      have := hinv.start_le
      omega
    rw [hinv.joined, hs]
    simp [List.length_eq_zero.mp h0]

theorem tokenize_value_ne_nil (format : Str) :
    ∀ token ∈ tokenize format, token.value ≠ [] := by
  obtain ⟨hinv, hi⟩ := tokenize_final format
  unfold tokenize
  dsimp only
  split_ifs with hpos
  · intro token hmem
    rcases List.mem_append.mp hmem with hold | hnew
    · exact hinv.nonempty token hold
    · rw [List.mem_singleton.mp hnew]
      have := hinv.started
      exact substr_ne_nil format _ _ (by omega) (by omega)
  · exact hinv.nonempty

/-- C3: for every format string, concatenating the texts of the tokens produced by
`tokenize`, in order, gives back the format string exactly, and the empty format produces no
tokens. -/
theorem tokenize_concat_eq_format (format : Str) :
    ((tokenize format).map Token.value).flatten = format ∧ tokenize [] = [] :=
  ⟨tokenize_values_flatten format, rfl⟩

/-! ## Facts about `writePlayingFormat` -/

theorem subSize_of_le (a b : Nat) (ha : a < SIZE_MOD) (hb : b ≤ a) : subSize a b = a - b := by
  unfold subSize SIZE_MOD at *
  omega

theorem writeLoop_remaining (T : Text) (title album : Str) (tokens : List Token)
    (s : WriteState) (hs : s.remaining < SIZE_MOD) :
    (writeLoop T title album tokens s).remaining =
      s.remaining - (resolvedWidths T title album tokens).sum := by
  induction tokens generalizing s with
  | nil => simp [writeLoop, resolvedWidths]
  | cons token rest ih =>
    unfold writeLoop
    simp only [resolvedWidths, List.map_cons, List.sum_cons] at *
    split_ifs with hpos hlen
    · rw [ih _ (by simp only; rw [subSize_of_le _ _ hs (Nat.le_refl _)]; omega)]
      simp only
      rw [subSize_of_le _ _ hs (Nat.le_refl _)]
      omega
    · rw [ih _ (by simp only; rw [subSize_of_le _ _ hs (by omega)]; omega)]
      simp only
      rw [subSize_of_le _ _ hs (by omega)]
      omega
    · omega

theorem writeLoop_budget (T : Text) (title album : Str) (tokens : List Token)
    (s : WriteState) (hs : BudgetOk s) : BudgetOk (writeLoop T title album tokens s) := by
  induction tokens generalizing s with
  | nil => exact hs
  | cons token rest ih =>
    unfold writeLoop
    split_ifs with hpos
    · apply ih
      refine ⟨by simp [hs.1], ?_⟩
      intro p hp
      rcases List.mem_append.mp hp with hold | hnew
      · exact hs.2 p hold
      · rw [List.mem_singleton.mp hnew]
        dsimp only
        split_ifs <;> omega
    · exact hs

/-- C1: for every width `w` (a `size_t`) and every format, title and album, the width
returned by `writePlayingFormat` is at most `w` and equals `min w W`, where `W` is the sum
of the display widths of the resolved token values; every `remaining -= len` subtracts at
most the budget left (no underflow), and every span was written with a positive budget
(nothing is emitted once the budget is 0).  This holds whatever `u8len` and `Ellipsize`
compute. -/
theorem writePlayingFormat_width_le (T : Text) (format title album : Str) (w : Nat)
    (hw : w < SIZE_MOD) :
    (writePlayingFormat T format title album w).written ≤ w ∧
    (writePlayingFormat T format title album w).written
      = min w (resolvedWidth T format title album) ∧
    (writePlayingFormat T format title album w).spans.length
      = (writePlayingFormat T format title album w).budget.length ∧
    ∀ p ∈ (writePlayingFormat T format title album w).budget, 0 < p.1 ∧ p.2 ≤ p.1 := by
  have hrem := writeLoop_remaining T title album (tokenize format)
    { remaining := w, spans := [], budget := [] } hw
  have hbud := writeLoop_budget T title album (tokenize format)
    { remaining := w, spans := [], budget := [] } ⟨rfl, by simp⟩
  have hwritten : (writePlayingFormat T format title album w).written
      = min w (resolvedWidth T format title album) := by
    simp only [writePlayingFormat, hrem, resolvedWidth]
    rw [subSize_of_le _ _ hw (Nat.sub_le _ _)]
    simp only [resolvedWidths]
    omega
  refine ⟨?_, hwritten, hbud.1, hbud.2⟩
  rw [hwritten]
  exact Nat.min_le_left _ _

/-- C1, at width 20 with the default format: the title "Song" and the album "Record" need
24 cells, and 20 are consumed. -/
theorem writePlayingFormat_width_le_witness :
    (20 < SIZE_MOD) ∧
    (writePlayingFormat cursesText playingFormat "Song".toList "Record".toList 20).written
      = min 20 (resolvedWidth cursesText playingFormat "Song".toList "Record".toList) ∧
    resolvedWidth cursesText playingFormat "Song".toList "Record".toList = 24 :=
  ⟨by decide,
   (writePlayingFormat_width_le cursesText playingFormat "Song".toList "Record".toList 20
      (by decide)).2.1,
   by decide⟩

theorem resolveValue_eq_expandToken (title album : Str) (token : Token)
    (htitle : title ≠ []) (halbum : album ≠ []) :
    resolveValue title album token = expandToken title album token := by
  unfold resolveValue expandToken
  generalize "$title".toList = a
  generalize "$album".toList = b
  by_cases hP : token.type = TokenType.Placeholder
  · by_cases h1 : token.value = a
    · simp [hP, h1, htitle]
    · by_cases h2 : token.value = b
      · rw [h2] at h1
        simp [hP, h1, h2, halbum]
      · simp [hP, h1, h2]
  · simp [hP]

theorem expandToken_ne_nil (title album : Str) (token : Token)
    (htitle : title ≠ []) (halbum : album ≠ []) (hvalue : token.value ≠ []) :
    expandToken title album token ≠ [] := by
  unfold expandToken
  split_ifs <;> assumption

theorem writeLoop_spans_of_fit (T : Text) (title album : Str) (tokens : List Token)
    (s : WriteState) (hs : s.remaining < SIZE_MOD)
    (hpos : ∀ token ∈ tokens, 0 < T.u8len (resolveValue title album token))
    (hfit : (resolvedWidths T title album tokens).sum ≤ s.remaining) :
    (writeLoop T title album tokens s).spans =
      s.spans ++ tokens.map (fun token =>
        ⟨resolveValue title album token, decide (token.type = TokenType.Placeholder)⟩) := by
  induction tokens generalizing s with
  | nil => simp [writeLoop]
  | cons token rest ih =>
    have h0 := hpos token (List.mem_cons_self _ _)
    simp only [resolvedWidths, List.map_cons, List.sum_cons] at hfit
    unfold writeLoop
    have hrem : s.remaining > 0 := by omega
    have hlen : ¬ T.u8len (resolveValue title album token) > s.remaining := by omega
    simp only [hrem, hlen, if_true, if_false]
    rw [ih _ (by simp only; rw [subSize_of_le _ _ hs (by omega)]; omega)
      (fun t ht => hpos t (List.mem_cons_of_mem _ ht))
      (by simp only [resolvedWidths]; rw [subSize_of_le _ _ hs (by omega)]; omega)]
    simp

/-- The arguments of `wprintw` round-trip: for every format string, every non-empty title
and album, and every width (a `size_t`) at least as large as the display width of the
expanded format, the texts handed to `wprintw` are, token by token, the format's tokens with
each placeholder `$title` replaced by the title and each placeholder `$album` replaced by
the album and every other token as its own raw text, placeholders styled and literals not;
the token texts spell the format exactly; and the returned width is the display width of
the texts handed over. -/
theorem writePlayingFormat_roundtrip (format title album : Str) (w : Nat)
    (hw : w < SIZE_MOD) (htitle : title ≠ []) (halbum : album ≠ [])
    (hfit : u8len (expandFormat format title album) ≤ w) :
    (writePlayingFormat cursesText format title album w).spans =
      (tokenize format).map (fun token =>
        ⟨expandToken title album token, decide (token.type = TokenType.Placeholder)⟩) ∧
    ((tokenize format).map Token.value).flatten = format ∧
    emittedText (writePlayingFormat cursesText format title album w)
      = expandFormat format title album ∧
    (writePlayingFormat cursesText format title album w).written
      = u8len (emittedText (writePlayingFormat cursesText format title album w)) := by
  have hres : ∀ token : Token, resolveValue title album token = expandToken title album token :=
    fun token => resolveValue_eq_expandToken title album token htitle halbum
  have hwidths : (resolvedWidths cursesText title album (tokenize format)).sum
      = u8len (expandFormat format title album) := by
    simp only [resolvedWidths, cursesText, u8len, expandFormat, hres, List.length_flatten,
      List.map_map]
    rfl
  have hpos : ∀ token ∈ tokenize format,
      0 < cursesText.u8len (resolveValue title album token) := by
    intro token hmem
    rw [hres]
    exact List.length_pos.mpr
      (expandToken_ne_nil title album token htitle halbum
        (tokenize_value_ne_nil format token hmem))
  have hspans := writeLoop_spans_of_fit cursesText title album (tokenize format)
    { remaining := w, spans := [], budget := [] } hw hpos (by rw [hwidths]; exact hfit)
  have hspans2 : (writePlayingFormat cursesText format title album w).spans =
      (tokenize format).map (fun token =>
        ⟨expandToken title album token, decide (token.type = TokenType.Placeholder)⟩) := by
    simp only [writePlayingFormat, hspans, List.nil_append, hres]
  have htext : emittedText (writePlayingFormat cursesText format title album w)
      = expandFormat format title album := by
    simp only [emittedText, hspans2, expandFormat, List.map_map]
    rfl
  refine ⟨hspans2, tokenize_values_flatten format, htext, ?_⟩
  rw [htext]
  have hrem := writeLoop_remaining cursesText title album (tokenize format)
    { remaining := w, spans := [], budget := [] } hw
  simp only [writePlayingFormat, hrem, hwidths]
  rw [subSize_of_le _ _ hw (Nat.sub_le _ _)]
  omega

/-- The round trip of the arguments at the format `$Title: $title ($artist)`, whose first
and last placeholders are not known names: with title "Song" the texts handed to `wprintw`
spell `$Title: Song ($artist)`. -/
theorem writePlayingFormat_roundtrip_witness :
    emittedText (writePlayingFormat cursesText "$Title: $title ($artist)".toList
      "Song".toList "Record".toList 30) = "$Title: Song ($artist)".toList ∧
    (writePlayingFormat cursesText "$Title: $title ($artist)".toList
      "Song".toList "Record".toList 30).written = 22 := by
  have h := writePlayingFormat_roundtrip "$Title: $title ($artist)".toList
    "Song".toList "Record".toList 30 (by decide) (by decide) (by decide) (by decide)
  refine ⟨?_, ?_⟩
  · rw [h.2.2.1]
    decide
  · rw [h.2.2.2, h.2.2.1]
    decide

theorem printfText_of_no_percent (text : Str) (h : '%' ∉ text) :
    printfText text = some text := by
  induction text with
  | nil => rfl
  | cons c rest ih =>
    have hc : ¬ (c = '%') := fun hc => h (by rw [hc]; exact List.mem_cons_self _ _)
    have hrest : '%' ∉ rest := fun hmem => h (List.mem_cons_of_mem _ hmem)
    unfold printfText
    rw [if_neg hc, ih hrest]
    rfl

theorem shownSpans_of_no_percent (spans : List Span)
    (h : ∀ span ∈ spans, '%' ∉ span.text) :
    shownSpans spans = some (spans.map Span.text).flatten := by
  induction spans with
  | nil => rfl
  | cons span rest ih =>
    unfold shownSpans
    rw [printfText_of_no_percent span.text (h span (List.mem_cons_self _ _)),
      ih (fun x hx => h x (List.mem_cons_of_mem _ hx))]
    rfl

/-- Where no `%` is written the window shows the texts handed to `wprintw`. -/
theorem shownText_of_no_percent (r : WriteResult) (h : ∀ span ∈ r.spans, '%' ∉ span.text) :
    shownText r = some (emittedText r) :=
  shownSpans_of_no_percent r.spans h

/-- C2: with the title `50%% off` (album "Record", the default format, width 80) the renderer
hands the title to `wprintw` as its format, so the window shows `playing 50% off from
Record`, with a single `%`: the title is not reproduced exactly, and the returned width, 28,
is not the display width, 27, of the text shown.  With the title `100% live` the `%` starts
a conversion for which no argument was passed, and what is shown is undefined.  A title
without `%` is shown as it is. -/
theorem writePlayingFormat_percent_in_title :
    (writePlayingFormat cursesText playingFormat "50%% off".toList "Record".toList 80).spans
      = [⟨"playing ".toList, false⟩, ⟨"50%% off".toList, true⟩, ⟨" from ".toList, false⟩,
         ⟨"Record".toList, true⟩] ∧
    expandFormat playingFormat "50%% off".toList "Record".toList
      = "playing 50%% off from Record".toList ∧
    shownText (writePlayingFormat cursesText playingFormat "50%% off".toList "Record".toList 80)
      = some "playing 50% off from Record".toList ∧
    u8len "playing 50% off from Record".toList = 27 ∧
    (writePlayingFormat cursesText playingFormat "50%% off".toList "Record".toList 80).written
      = 28 ∧
    shownText (writePlayingFormat cursesText playingFormat "100% live".toList "Record".toList 80)
      = none ∧
    shownText (writePlayingFormat cursesText playingFormat "Song".toList "Record".toList 80)
      = some "playing Song from Record".toList := by
  decide

/-- C4: at the format `a$$b` the tokenizer recognises the doubled `$$` and yields the single
literal token `a$$b`, with no placeholder; the renderer then writes that token's text as it
is, so the window shows `a$$b`, both `$` included, and not `a$b`. -/
theorem writePlayingFormat_doubled_dollar :
    tokenize "a$$b".toList = [⟨"a$$b".toList, TokenType.Normal⟩] ∧
    (writePlayingFormat cursesText "a$$b".toList "Song".toList "Record".toList 20).spans
      = [⟨"a$$b".toList, false⟩] ∧
    emittedText (writePlayingFormat cursesText "a$$b".toList "Song".toList "Record".toList 20)
      ≠ "a$b".toList := by
  decide

/-- C5: with the format `playing $title from $album`, title "Song", album "Record" and width
20, `tokenize` yields exactly the four tokens literal `playing `, placeholder `$title`,
literal ` from `, placeholder `$album`; the renderer writes unstyled `playing `, styled
`Song`, unstyled ` from ` and then, with 2 cells remaining, the styled album ellipsized to
those 2 cells; the window reads `playing Song from R…` and the returned width is 20. -/
theorem writePlayingFormat_scenario :
    tokenize playingFormat =
      [⟨"playing ".toList, TokenType.Normal⟩, ⟨"$title".toList, TokenType.Placeholder⟩,
       ⟨" from ".toList, TokenType.Normal⟩, ⟨"$album".toList, TokenType.Placeholder⟩] ∧
    (writePlayingFormat cursesText playingFormat "Song".toList "Record".toList 20).spans =
      [⟨"playing ".toList, false⟩, ⟨"Song".toList, true⟩, ⟨" from ".toList, false⟩,
       ⟨Ellipsize "Record".toList 2, true⟩] ∧
    (writePlayingFormat cursesText playingFormat "Song".toList "Record".toList 20).budget =
      [(20, 8), (12, 4), (8, 6), (2, 2)] ∧
    Ellipsize "Record".toList 2 = "R…".toList ∧
    emittedText (writePlayingFormat cursesText playingFormat "Song".toList "Record".toList 20)
      = "playing Song from R…".toList ∧
    (writePlayingFormat cursesText playingFormat "Song".toList "Record".toList 20).written
      = 20 := by
  decide

/-! ## Facts about the now-playing layout -/

theorem toInt_natCast (n : Nat) (h : n < 2147483648) : toInt (n : Int) = (n : Int) := by
  unfold toInt
  omega

theorem toSizeT_natCast (n : Nat) (h : n < SIZE_MOD) : toSizeT (n : Int) = n := by
  unfold toSizeT
  unfold SIZE_MOD at *
  omega

theorem subSize_one (n : Nat) (h : n < SIZE_MOD) (hpos : 0 < n) : subSize n 1 = n - 1 := by
  unfold subSize
  unfold SIZE_MOD at *
  omega

/-- A requery that finds a pending reselect index `r` (a valid `int`, non-negative) selects
row `r`, whatever the scroll position, and leaves queue and rows as they are. -/
theorem OnTrackListRequeried_reselect {Track : Type} (s : NowPlayingLayout Track) (r : Nat)
    (hq : s.queue.length ≠ 0) (hr : s.reselectIndex = (r : Int)) (hlt : r < 2147483648) :
    (OnTrackListRequeried s).selectedIndex = r ∧
    (OnTrackListRequeried s).tracks = s.tracks ∧
    (OnTrackListRequeried s).queue = s.queue := by
  have h1 : ¬ ((r : Int) = -1) := by omega
  have h2 : toSizeT (toInt (r : Int)) = r := by
    rw [toInt_natCast r hlt, toSizeT_natCast r (by unfold SIZE_MOD; omega)]
  have h3 : ¬ (r = NO_INDEX) := by unfold NO_INDEX SIZE_MOD; omega
  unfold OnTrackListRequeried
  simp only [hq, hr, h1, h2, ne_eq, not_false_eq_true, if_true, if_false, SetSelectedIndex,
    ScrollTo]
  split_ifs <;> simp_all

/-- A requery that finds no pending reselect index selects the engine's playing index, or
row 0 when the engine reports none. -/
theorem OnTrackListRequeried_playing {Track : Type} (s : NowPlayingLayout Track)
    (hq : s.queue.length ≠ 0) (hr : s.reselectIndex = -1) :
    (OnTrackListRequeried s).selectedIndex =
      if s.playIndex = NO_INDEX then 0 else s.playIndex := by
  unfold OnTrackListRequeried
  simp only [hq, hr, ne_eq, not_false_eq_true, if_true, SetSelectedIndex, ScrollTo]
  split_ifs <;> simp_all [NO_INDEX, SIZE_MOD]

theorem length_moveEntry {Track : Type} (queue : List Track) (i t : Nat) :
    (moveEntry queue i t).length = queue.length := by
  unfold moveEntry
  split
  · next track hsome =>
    have hi : i < queue.length := by
      by_contra hcon
      rw [List.getElem?_eq_none (by omega)] at hsome
      cases hsome
    split_ifs with ht
    · simp only [List.length_append, List.length_take, List.length_cons, List.length_drop,
        List.length_eraseIdx, hi, if_true]
      omega
    · rfl
  · rfl

/-- Row by row, what `moveEntry` does between two rows of the queue: the rows before the
destination and the rows after it are those of the queue without the moved entry, and the
destination holds the moved entry. -/
theorem getElem?_moveEntry {Track : Type} (queue : List Track) (i t j : Nat)
    (hi : i < queue.length) (ht : t < queue.length) :
    (moveEntry queue i t)[j]? =
      if j < t then (if j < i then queue[j]? else queue[j + 1]?)
      else if j = t then queue[i]?
      else (if j - 1 < i then queue[j - 1]? else queue[j]?) := by
  unfold moveEntry
  rw [List.getElem?_eq_getElem hi]
  simp only [ht, if_true]
  have hlen : ((queue.eraseIdx i).take t).length = t := by
    simp only [List.length_take, List.length_eraseIdx, hi, if_true]
    omega
  by_cases h1 : j < t
  · rw [List.getElem?_append_left (by omega)]
    simp only [h1, if_true, List.getElem?_take, List.getElem?_eraseIdx]
  · rw [List.getElem?_append_right (by omega), hlen]
    by_cases h2 : j = t
    · subst h2
      simp [List.getElem?_eq_getElem hi]
    · have h3 : j - t = (j - t - 1) + 1 := by omega
      rw [h3, List.getElem?_cons_succ, List.getElem?_drop, List.getElem?_eraseIdx]
      simp only [h1, h2, if_false]
      have h4 : t + (j - t - 1) = j - 1 := by omega
      have h5 : j - 1 + 1 = j := by omega
      rw [h4, h5]

theorem ProcessEditOperation_up {Track : Type} (s : NowPlayingLayout Track)
    (hns : s.shuffled = false) (hpos : 0 < s.selectedIndex)
    (hint : s.selectedIndex < 2147483648) :
    ProcessEditOperation s "M-up" =
      (true, RequeryTrackList
        { editorMove s s.selectedIndex (s.selectedIndex - 1) with
          reselectIndex := ((s.selectedIndex - 1 : Nat) : Int) }) := by
  have hsub : subSize s.selectedIndex 1 = s.selectedIndex - 1 :=
    subSize_one _ (by unfold SIZE_MOD; omega) hpos
  have hcast : toInt ((s.selectedIndex - 1 : Nat) : Int) = ((s.selectedIndex - 1 : Nat) : Int) :=
    toInt_natCast _ (by omega)
  have hkey : "M-up" ∈ EDIT_KEYS := by decide
  unfold ProcessEditOperation
  simp only [hkey, hns, hpos, hsub, hcast, if_true, gt_iff_lt, Bool.false_eq_true,
    not_false_eq_true]

theorem ProcessEditOperation_down {Track : Type} (s : NowPlayingLayout Track)
    (hns : s.shuffled = false) (hlt : s.selectedIndex + 1 < s.queue.length)
    (hint : s.queue.length < 2147483648) :
    ProcessEditOperation s "M-down" =
      (true, RequeryTrackList
        { editorMove s s.selectedIndex (s.selectedIndex + 1) with
          reselectIndex := ((s.selectedIndex + 1 : Nat) : Int) }) := by
  have hsub : subSize s.queue.length 1 = s.queue.length - 1 :=
    subSize_one _ (by unfold SIZE_MOD; omega) (by omega)
  have hmod : (s.selectedIndex + 1) % SIZE_MOD = s.selectedIndex + 1 := by
    unfold SIZE_MOD
    omega
  have hcast : toInt ((s.selectedIndex + 1 : Nat) : Int) = ((s.selectedIndex + 1 : Nat) : Int) :=
    toInt_natCast _ (by omega)
  have hcmp : s.selectedIndex < s.queue.length - 1 := by omega
  have hkey : "M-down" ∈ EDIT_KEYS := by decide
  have hne : ¬ ("M-down" = "M-up") := by decide
  unfold ProcessEditOperation
  simp only [hkey, hns, hne, hsub, hmod, hcast, hcmp, if_true, if_false, Bool.false_eq_true,
    not_false_eq_true]

theorem ProcessEditOperation_delete {Track : Type} (s : NowPlayingLayout Track) (key : String)
    (hkey : key = "KEY_BACKSPACE" ∨ key = "KEY_DC")
    (hns : s.shuffled = false) (hint : s.selectedIndex < 2147483648) :
    ProcessEditOperation s key =
      (true, RequeryTrackList
        { editorDelete s s.selectedIndex with reselectIndex := (s.selectedIndex : Int) }) := by
  have hcast : toInt (s.selectedIndex : Int) = (s.selectedIndex : Int) :=
    toInt_natCast _ hint
  have hmem : key ∈ EDIT_KEYS := by
    rcases hkey with h | h <;> rw [h] <;> decide
  have hup : ¬ (key = "M-up") := by
    rcases hkey with h | h <;> rw [h] <;> decide
  have hdown : ¬ (key = "M-down") := by
    rcases hkey with h | h <;> rw [h] <;> decide
  unfold ProcessEditOperation
  simp only [hmem, hns, hup, hdown, hkey, hcast, if_true, if_false, Bool.false_eq_true,
    not_false_eq_true]

theorem moveEntry_adjacent {Track : Type} (queue : List Track) (i t : Nat)
    (hi : i < queue.length) (ht : t < queue.length) (hadj : t = i + 1 ∨ t + 1 = i) :
    (moveEntry queue i t)[t]? = queue[i]? ∧
    (moveEntry queue i t)[i]? = queue[t]? ∧
    ∀ j, j ≠ i → j ≠ t → (moveEntry queue i t)[j]? = queue[j]? := by
  refine ⟨?_, ?_, ?_⟩
  · rw [getElem?_moveEntry queue i t t hi ht]
    simp
  · rw [getElem?_moveEntry queue i t i hi ht]
    split_ifs <;> first | rfl | (exfalso; omega) | (congr 1; omega)
  · intro j hji hjt
    rw [getElem?_moveEntry queue i t j hi ht]
    split_ifs <;> first | rfl | (exfalso; omega)

theorem movedTo_of_step {Track : Type} (s : NowPlayingLayout Track) (key : String) (dest : Nat)
    (hstep : ProcessEditOperation s key =
      (true, RequeryTrackList
        { editorMove s s.selectedIndex dest with reselectIndex := (dest : Int) }))
    (hsel : s.selectedIndex < s.queue.length) (hdest : dest < s.queue.length)
    (hadj : dest = s.selectedIndex + 1 ∨ dest + 1 = s.selectedIndex)
    (hint : s.queue.length < 2147483648) : MovedTo s key dest := by
  obtain ⟨h1, h2, h3⟩ := moveEntry_adjacent s.queue s.selectedIndex dest hsel hdest hadj
  have hlen := length_moveEntry s.queue s.selectedIndex dest
  have hreq := OnTrackListRequeried_reselect
    { (RequeryTrackList
        { editorMove s s.selectedIndex dest with reselectIndex := (dest : Int) }) with
      tracks := moveEntry s.queue s.selectedIndex dest } dest
    (by simp only [RequeryTrackList, editorMove]; omega) rfl (by omega)
  unfold MovedTo
  rw [hstep]
  refine ⟨rfl, rfl, rfl, hlen, h1, h2, h3, rfl, ?_, ?_, ?_⟩
  · exact hreq.1
  · have := hreq.2.1
    simp only [requeryCompleted, RequeryTrackList, editorMove] at this ⊢
    rw [this]
    exact h1
  · simp [List.getElem?_eq_getElem hsel]

/-- C6: for every non-shuffled queue whose length fits an `int` and every valid selected row
`i`: move-up with `i > 0` moves the selected track to `i - 1`, and move-down with
`i < n - 1` moves it to `i + 1`; either records the destination in `reselectIndex`, and
after the next completed requery the selected index is the destination and the track at that
index is the track that was selected before the move. -/
theorem ProcessEditOperation_move_reselects {Track : Type} (s : NowPlayingLayout Track)
    (hns : s.shuffled = false) (hsel : s.selectedIndex < s.queue.length)
    (hint : s.queue.length < 2147483648) :
    (0 < s.selectedIndex → MovedTo s "M-up" (s.selectedIndex - 1)) ∧
    (s.selectedIndex + 1 < s.queue.length → MovedTo s "M-down" (s.selectedIndex + 1)) := by
  constructor
  · intro hpos
    exact movedTo_of_step s "M-up" (s.selectedIndex - 1)
      (ProcessEditOperation_up s hns hpos (by omega)) hsel (by omega) (Or.inr (by omega)) hint
  · intro hlt
    exact movedTo_of_step s "M-down" (s.selectedIndex + 1)
      (ProcessEditOperation_down s hns hlt hint) hsel hlt (Or.inl rfl) hint

/-- C6, on the queue `[A, B, C]` with row 1 (`B`) selected: move-down leaves `[A, C, B]` with
`reselectIndex` 2, and after the requery row 2 is selected and holds `B`; move-up would put
`B` at row 0. -/
theorem ProcessEditOperation_move_reselects_witness :
    (ProcessEditOperation (layoutOf ["A", "B", "C"] 1) "M-down").2.queue = ["A", "C", "B"] ∧
    (ProcessEditOperation (layoutOf ["A", "B", "C"] 1) "M-down").2.reselectIndex = 2 ∧
    (requeryCompleted
      (ProcessEditOperation (layoutOf ["A", "B", "C"] 1) "M-down").2).selectedIndex = 2 ∧
    (requeryCompleted
      (ProcessEditOperation (layoutOf ["A", "B", "C"] 1) "M-down").2).tracks[2]? = some "B" ∧
    MovedTo (layoutOf ["A", "B", "C"] 1) "M-down" 2 ∧
    MovedTo (layoutOf ["A", "B", "C"] 1) "M-up" 0 :=
  ⟨by decide, by decide, by decide, by decide,
   (ProcessEditOperation_move_reselects (layoutOf ["A", "B", "C"] 1) rfl
      (by decide) (by decide)).2 (by decide),
   (ProcessEditOperation_move_reselects (layoutOf ["A", "B", "C"] 1) rfl
      (by decide) (by decide)).1 (by decide)⟩

/-- C7 as stated fails for the last row: on the queue `[A, B]` with row 1 selected, a delete
key leaves the queue `[A]` and, after the requery, the selected index 1, where the shortened
queue has no row. -/
theorem delete_last_row_selects_no_row :
    (requeryCompleted
      (ProcessEditOperation (layoutOf ["A", "B"] 1) "KEY_DC").2).selectedIndex = 1 ∧
    (requeryCompleted (ProcessEditOperation (layoutOf ["A", "B"] 1) "KEY_DC").2).tracks
      = ["A"] ∧
    (requeryCompleted
      (ProcessEditOperation (layoutOf ["A", "B"] 1) "KEY_DC").2).tracks[1]? = none ∧
    ¬ DeletedAndReselected (layoutOf ["A", "B"] 1) "KEY_DC" :=
  ⟨by decide, by decide, by decide, fun h => absurd h.2.2.2.2.2.2 (by decide)⟩

/-- C7, amended: for every non-shuffled queue whose length fits an `int` and every selected
row `i` that is not the last (`i + 1 < n`), a delete key (`KEY_BACKSPACE` or `KEY_DC`)
removes track `i` and records `reselectIndex = i`, and after the next completed requery the
selected index is `i` and refers to the row that now occupies position `i` in the shortened
queue, the track that was at `i + 1`. -/
theorem ProcessEditOperation_delete_reselects {Track : Type} (s : NowPlayingLayout Track)
    (key : String) (hkey : key = "KEY_BACKSPACE" ∨ key = "KEY_DC")
    (hns : s.shuffled = false) (hsel : s.selectedIndex + 1 < s.queue.length)
    (hint : s.queue.length < 2147483648) :
    DeletedAndReselected s key ∧
    (requeryCompleted (ProcessEditOperation s key).2).tracks[s.selectedIndex]?
      = s.queue[s.selectedIndex + 1]? := by
  have hstep := ProcessEditOperation_delete s key hkey hns (by omega)
  have hlen : (s.queue.eraseIdx s.selectedIndex).length = s.queue.length - 1 := by
    rw [List.length_eraseIdx]
    simp only [show s.selectedIndex < s.queue.length by omega, if_true]
  have hreq := OnTrackListRequeried_reselect
    { (RequeryTrackList
        { editorDelete s s.selectedIndex with reselectIndex := (s.selectedIndex : Int) }) with
      tracks := s.queue.eraseIdx s.selectedIndex } s.selectedIndex
    (by simp only [RequeryTrackList, editorDelete, deleteEntry]; omega) rfl (by omega)
  have hrow : (s.queue.eraseIdx s.selectedIndex)[s.selectedIndex]?
      = s.queue[s.selectedIndex + 1]? := by
    rw [List.getElem?_eraseIdx]
    simp
  have htracks : (requeryCompleted (ProcessEditOperation s key).2).tracks
      = s.queue.eraseIdx s.selectedIndex := by
    rw [hstep]
    exact hreq.2.1
  refine ⟨?_, ?_⟩
  · unfold DeletedAndReselected
    refine ⟨?_, ?_, ?_, ?_, ?_, htracks, ?_⟩
    · rw [hstep]
    · rw [hstep]; rfl
    · rw [hstep]; rfl
    · rw [hstep]; rfl
    · rw [hstep]
      exact hreq.1
    · rw [htracks, hrow, List.getElem?_eq_getElem hsel]
      rfl
  · rw [htracks, hrow]

/-- C7 amended, on the queue `[A, B, C]` with row 1 (`B`) selected: `KEY_DC` leaves `[A, C]`
and after the requery row 1 is selected and holds `C`. -/
theorem ProcessEditOperation_delete_reselects_witness :
    DeletedAndReselected (layoutOf ["A", "B", "C"] 1) "KEY_DC" ∧
    (requeryCompleted
      (ProcessEditOperation (layoutOf ["A", "B", "C"] 1) "KEY_DC").2).tracks[1]? = some "C" :=
  ProcessEditOperation_delete_reselects (layoutOf ["A", "B", "C"] 1) "KEY_DC" (Or.inr rfl) rfl
    (by decide) (by decide)

/-- C8: in every state in which the playback queue is shuffled, `ProcessEditOperation`
returns `false` (key not handled) for every key, the four edit keys included, and leaves the
whole state as it was: no `Move`, no `Delete`, the same queue, selected index and
`reselectIndex`, and no requery. -/
theorem ProcessEditOperation_shuffled {Track : Type} (s : NowPlayingLayout Track)
    (key : String) (hshuffled : s.shuffled = true) :
    ProcessEditOperation s key = (false, s) ∧
    (ProcessEditOperation s key).2.editorCalls = s.editorCalls ∧
    (ProcessEditOperation s key).2.queue = s.queue ∧
    (ProcessEditOperation s key).2.selectedIndex = s.selectedIndex ∧
    (ProcessEditOperation s key).2.reselectIndex = s.reselectIndex ∧
    (ProcessEditOperation s key).2.requeries = s.requeries := by
  have h : ProcessEditOperation s key = (false, s) := by
    unfold ProcessEditOperation
    simp [hshuffled]
  rw [h]
  exact ⟨rfl, rfl, rfl, rfl, rfl, rfl⟩

/-- C8, on the shuffled queue `[A, B, C]` with row 1 selected and the key `M-up`. -/
theorem ProcessEditOperation_shuffled_witness :
    ProcessEditOperation { layoutOf ["A", "B", "C"] 1 with shuffled := true } "M-up"
      = (false, { layoutOf ["A", "B", "C"] 1 with shuffled := true }) :=
  (ProcessEditOperation_shuffled { layoutOf ["A", "B", "C"] 1 with shuffled := true }
    "M-up" rfl).1

/-- C9: for every non-shuffled, non-empty queue, move-up with the first row selected and
move-down with the last row selected (index `count - 1`) call no `Move` and leave the queue
and `reselectIndex` unchanged: the key is handled, and all that changes is that a requery is
issued. -/
theorem ProcessEditOperation_boundary {Track : Type} (s : NowPlayingLayout Track)
    (hns : s.shuffled = false) (hne : s.queue ≠ []) (hsize : s.queue.length < SIZE_MOD) :
    (s.selectedIndex = 0 →
      ProcessEditOperation s "M-up" = (true, { s with requeries := s.requeries + 1 }) ∧
      (ProcessEditOperation s "M-up").2.editorCalls = s.editorCalls ∧
      (ProcessEditOperation s "M-up").2.queue = s.queue ∧
      (ProcessEditOperation s "M-up").2.reselectIndex = s.reselectIndex) ∧
    (s.selectedIndex = s.queue.length - 1 →
      ProcessEditOperation s "M-down" = (true, { s with requeries := s.requeries + 1 }) ∧
      (ProcessEditOperation s "M-down").2.editorCalls = s.editorCalls ∧
      (ProcessEditOperation s "M-down").2.queue = s.queue ∧
      (ProcessEditOperation s "M-down").2.reselectIndex = s.reselectIndex) := by
  have hpos : 0 < s.queue.length := List.length_pos.mpr hne
  constructor
  · intro h0
    have hkey : "M-up" ∈ EDIT_KEYS := by decide
    have h : ProcessEditOperation s "M-up" = (true, { s with requeries := s.requeries + 1 }) := by
      unfold ProcessEditOperation
      simp only [hkey, hns, h0, if_true, gt_iff_lt, Nat.lt_irrefl, if_false,
        Bool.false_eq_true, not_false_eq_true, RequeryTrackList]
    rw [h]
    exact ⟨rfl, rfl, rfl, rfl⟩
  · intro hlast
    have hkey : "M-down" ∈ EDIT_KEYS := by decide
    have hne2 : ¬ ("M-down" = "M-up") := by decide
    have hsub : subSize s.queue.length 1 = s.queue.length - 1 := subSize_one _ hsize hpos
    have h : ProcessEditOperation s "M-down"
        = (true, { s with requeries := s.requeries + 1 }) := by
      unfold ProcessEditOperation
      simp only [hkey, hns, hne2, hsub, hlast, if_true, Nat.lt_irrefl, if_false,
        Bool.false_eq_true, not_false_eq_true, RequeryTrackList]
    rw [h]
    exact ⟨rfl, rfl, rfl, rfl⟩

/-- C9, on the queue `[A, B, C]`: move-up at row 0 and move-down at row 2 leave the queue
`[A, B, C]` and `reselectIndex` unset. -/
theorem ProcessEditOperation_boundary_witness :
    ((ProcessEditOperation (layoutOf ["A", "B", "C"] 0) "M-up").2.queue = ["A", "B", "C"] ∧
     (ProcessEditOperation (layoutOf ["A", "B", "C"] 0) "M-up").2.reselectIndex = -1) ∧
    ((ProcessEditOperation (layoutOf ["A", "B", "C"] 2) "M-down").2.queue = ["A", "B", "C"] ∧
     (ProcessEditOperation (layoutOf ["A", "B", "C"] 2) "M-down").2.reselectIndex = -1) :=
  ⟨⟨((ProcessEditOperation_boundary (layoutOf ["A", "B", "C"] 0) rfl
        (by decide) (by decide)).1 rfl).2.2.1,
    ((ProcessEditOperation_boundary (layoutOf ["A", "B", "C"] 0) rfl
        (by decide) (by decide)).1 rfl).2.2.2⟩,
   ⟨((ProcessEditOperation_boundary (layoutOf ["A", "B", "C"] 2) rfl
        (by decide) (by decide)).2 rfl).2.2.1,
    ((ProcessEditOperation_boundary (layoutOf ["A", "B", "C"] 2) rfl
        (by decide) (by decide)).2 rfl).2.2.2⟩⟩

/-- C10: in every state (queue empty or not, `reselectIndex` set or unset) `reselectIndex`
is unset (-1) after `OnTrackListRequeried`.  Hence, in a non-shuffled queue with row 2
selected, after the move-up of row 2 to row 1 and a completed requery the selected index is
1 and `reselectIndex` is -1; and a second completed requery without an edit in between
selects the index `p` the engine then reports as playing, or 0 when it reports none. -/
theorem OnTrackListRequeried_consumes_reselect {Track : Type} (s : NowPlayingLayout Track) :
    (OnTrackListRequeried s).reselectIndex = -1 ∧
    (s.shuffled = false → s.selectedIndex = 2 → 2 < s.queue.length →
      (ProcessEditOperation s "M-up").2.editorCalls = s.editorCalls ++ [EditorCall.Move 2 1] ∧
      (ProcessEditOperation s "M-up").2.reselectIndex = 1 ∧
      (requeryCompleted (ProcessEditOperation s "M-up").2).selectedIndex = 1 ∧
      (requeryCompleted (ProcessEditOperation s "M-up").2).reselectIndex = -1 ∧
      ∀ p : Nat,
        (requeryCompleted
          { requeryCompleted (ProcessEditOperation s "M-up").2 with playIndex := p }).selectedIndex
          = if p = NO_INDEX then 0 else p) := by
  refine ⟨rfl, ?_⟩
  intro hns hsel hlen
  have hstep := ProcessEditOperation_up s hns (by omega) (by omega)
  rw [hsel] at hstep
  have hreq := OnTrackListRequeried_reselect
    { (RequeryTrackList { editorMove s 2 (2 - 1) with reselectIndex := ((2 - 1 : Nat) : Int) }) with
      tracks := moveEntry s.queue 2 1 } 1
    (by simp only [RequeryTrackList, editorMove]; rw [length_moveEntry]; omega) rfl (by omega)
  rw [hstep]
  refine ⟨rfl, rfl, hreq.1, rfl, ?_⟩
  intro p
  apply OnTrackListRequeried_playing
  · have hq := hreq.2.2
    simp only [requeryCompleted, RequeryTrackList, editorMove] at hq ⊢
    rw [hq, length_moveEntry]
    omega
  · rfl

/-- C10, on the queue `[A, B, C]` with row 2 selected and the engine playing row 0: after the
move-up and the requery row 1 is selected; a second requery selects row 0, and with the
engine reporting no playing index it selects row 0 as well. -/
theorem OnTrackListRequeried_consumes_reselect_witness :
    (requeryCompleted
      (ProcessEditOperation (layoutOf ["A", "B", "C"] 2) "M-up").2).selectedIndex = 1 ∧
    (requeryCompleted
      { requeryCompleted (ProcessEditOperation (layoutOf ["A", "B", "C"] 2) "M-up").2 with
        playIndex := NO_INDEX }).selectedIndex = 0 ∧
    (requeryCompleted
      { requeryCompleted (ProcessEditOperation (layoutOf ["A", "B", "C"] 2) "M-up").2 with
        playIndex := 2 }).selectedIndex = 2 :=
  ⟨((OnTrackListRequeried_consumes_reselect (layoutOf ["A", "B", "C"] 2)).2 rfl rfl
      (by decide)).2.2.1,
   ((OnTrackListRequeried_consumes_reselect (layoutOf ["A", "B", "C"] 2)).2 rfl rfl
      (by decide)).2.2.2.2 NO_INDEX,
   ((OnTrackListRequeried_consumes_reselect (layoutOf ["A", "B", "C"] 2)).2 rfl rfl
      (by decide)).2.2.2.2 2⟩

/-- C11: a reselect index past the end is not clamped.  Deleting the last row of `[A, B]`
leaves the queue `[A]` with `reselectIndex` 1, and after the requery the selected index is 1,
which is no row of a queue of one track; a negative reselect index other than -1 is selected
as the `size_t` it converts to.  Only the value `(size_t) -1` is replaced by 0. -/
theorem OnTrackListRequeried_selects_out_of_range :
    (ProcessEditOperation (layoutOf ["A", "B"] 1) "KEY_BACKSPACE").2.queue = ["A"] ∧
    (ProcessEditOperation (layoutOf ["A", "B"] 1) "KEY_BACKSPACE").2.reselectIndex = 1 ∧
    (requeryCompleted
      (ProcessEditOperation (layoutOf ["A", "B"] 1) "KEY_BACKSPACE").2).selectedIndex = 1 ∧
    (OnTrackListRequeried { layoutOf ["A"] 0 with reselectIndex := 1 }).selectedIndex = 1 ∧
    (OnTrackListRequeried { layoutOf ["A"] 0 with reselectIndex := -5 }).selectedIndex
      = 18446744073709551611 ∧
    (OnTrackListRequeried { layoutOf ["A"] 0 with playIndex := NO_INDEX }).selectedIndex
      = 0 := by
  decide

/-- C12 as stated fails: with the engine playing row 5 of a queue of ten, the requery
selects row 5 but scrolls to row 4, not to row 5. -/
theorem OnTrackListRequeried_scrolls_to_previous_row :
    (OnTrackListRequeried
      { layoutOf (List.replicate 10 "A") 0 with playIndex := 5 }).selectedIndex = 5 ∧
    (OnTrackListRequeried
      { layoutOf (List.replicate 10 "A") 0 with playIndex := 5 }).scrollCalls = [4] ∧
    (OnTrackListRequeried
      { layoutOf (List.replicate 10 "A") 0 with playIndex := 5 }).scrollCalls ≠ [5] := by
  decide

/-- C12, amended: for every non-empty queue with `reselectIndex` unset and the engine playing
index `i`, `OnTrackListRequeried` selects `i` and makes exactly one call of `ScrollTo`: to
row `i - 1` when `i > 0`, so that the row before the playing one becomes the first visible
row, and to row 0 when `i = 0`. -/
theorem OnTrackListRequeried_playing_scroll {Track : Type} (s : NowPlayingLayout Track)
    (hq : s.queue.length ≠ 0) (hr : s.reselectIndex = -1) (hi : s.playIndex < NO_INDEX) :
    (OnTrackListRequeried s).selectedIndex = s.playIndex ∧
    (OnTrackListRequeried s).scrollCalls
      = s.scrollCalls ++ [if s.playIndex = 0 then 0 else s.playIndex - 1] ∧
    (OnTrackListRequeried s).scrollPosition.firstVisibleEntryIndex
      = (if s.playIndex = 0 then 0 else s.playIndex - 1) := by
  have hne : ¬ (s.playIndex = NO_INDEX) := by omega
  have hsub : s.playIndex ≠ 0 → subSize s.playIndex 1 = s.playIndex - 1 := fun h0 =>
    subSize_one _ (by unfold NO_INDEX at hi; omega) (by omega)
  unfold OnTrackListRequeried
  simp only [hq, hr, hne, ne_eq, not_false_eq_true, if_true, if_false, SetSelectedIndex,
    ScrollTo]
  by_cases h0 : s.playIndex = 0
  · simp [h0]
  · simp [h0, hsub h0, hne]

/-- C12 amended, with the engine playing row 5 and with the engine playing row 0. -/
theorem OnTrackListRequeried_playing_scroll_witness :
    (OnTrackListRequeried
      { layoutOf (List.replicate 10 "A") 0 with playIndex := 5 }).scrollCalls = [] ++ [4] ∧
    (OnTrackListRequeried (layoutOf (List.replicate 10 "A") 0)).scrollCalls = [] ++ [0] :=
  ⟨(OnTrackListRequeried_playing_scroll
      { layoutOf (List.replicate 10 "A") 0 with playIndex := 5 }
      (by decide) rfl (by decide)).2.1,
   (OnTrackListRequeried_playing_scroll (layoutOf (List.replicate 10 "A") 0)
      (by decide) rfl (by decide)).2.1⟩

/-- The calls a requery makes when it finds a reselect index: for every non-empty queue with
`reselectIndex = r` set (`r` a non-negative `int`) and the visible window
`[first, first + visibleCount)` (its end fitting an `int`), `OnTrackListRequeried` selects
`r`; if `first <= r < first + visibleCount` it makes no call of `ScrollTo` and the scroll
position is left unchanged; otherwise, whether `r` is above or below the window, it makes
the one call `ScrollTo(r)`.  What the list shows after that call is the business of
`ScrollTo`; as modelled here, `r` is then the first visible row. -/
theorem OnTrackListRequeried_reselect_scroll {Track : Type} (s : NowPlayingLayout Track)
    (r : Nat) (hq : s.queue.length ≠ 0) (hr : s.reselectIndex = (r : Int))
    (hlt : r < 2147483648)
    (hwin : s.scrollPosition.firstVisibleEntryIndex + s.scrollPosition.visibleEntryCount
      < 2147483648) :
    (OnTrackListRequeried s).selectedIndex = r ∧
    ((s.scrollPosition.firstVisibleEntryIndex ≤ r ∧
        r < s.scrollPosition.firstVisibleEntryIndex + s.scrollPosition.visibleEntryCount) →
      (OnTrackListRequeried s).scrollCalls = s.scrollCalls ∧
      (OnTrackListRequeried s).scrollPosition = s.scrollPosition) ∧
    (¬ (s.scrollPosition.firstVisibleEntryIndex ≤ r ∧
        r < s.scrollPosition.firstVisibleEntryIndex + s.scrollPosition.visibleEntryCount) →
      (OnTrackListRequeried s).scrollCalls = s.scrollCalls ++ [r] ∧
      (OnTrackListRequeried s).scrollPosition.firstVisibleEntryIndex = r ∧
      (OnTrackListRequeried s).scrollPosition.visibleEntryCount
        = s.scrollPosition.visibleEntryCount) := by
  have h1 : ¬ ((r : Int) = -1) := by omega
  have h2 : toInt (r : Int) = (r : Int) := toInt_natCast r hlt
  have h3 : toSizeT (r : Int) = r := toSizeT_natCast r (by unfold SIZE_MOD; omega)
  have h4 : ¬ (r = NO_INDEX) := by unfold NO_INDEX SIZE_MOD; omega
  have h5 : toInt (s.scrollPosition.firstVisibleEntryIndex : Int)
      = (s.scrollPosition.firstVisibleEntryIndex : Int) := toInt_natCast _ (by omega)
  have h6 : toInt ((s.scrollPosition.firstVisibleEntryIndex : Int)
      + (s.scrollPosition.visibleEntryCount : Int))
      = ((s.scrollPosition.firstVisibleEntryIndex + s.scrollPosition.visibleEntryCount
          : Nat) : Int) := by
    rw [← Nat.cast_add]
    exact toInt_natCast _ hwin
  unfold OnTrackListRequeried
  simp only [hq, hr, h1, h2, h3, h5, h6, ne_eq, not_false_eq_true, if_true, if_false,
    SetSelectedIndex, ScrollTo]
  by_cases hin : s.scrollPosition.firstVisibleEntryIndex ≤ r ∧
      r < s.scrollPosition.firstVisibleEntryIndex + s.scrollPosition.visibleEntryCount
  · have hc : ¬ ((r : Int) < (s.scrollPosition.firstVisibleEntryIndex : Int) ∨
        (r : Int) ≥ ((s.scrollPosition.firstVisibleEntryIndex
          + s.scrollPosition.visibleEntryCount : Nat) : Int)) := by omega
    rw [if_neg hc]
    simp [hin, h4]
  · have hc : ((r : Int) < (s.scrollPosition.firstVisibleEntryIndex : Int) ∨
        (r : Int) ≥ ((s.scrollPosition.firstVisibleEntryIndex
          + s.scrollPosition.visibleEntryCount : Nat) : Int)) := by omega
    rw [if_pos hc]
    simp [hin, h4]

/-- With rows 0 to 9 visible, `reselectIndex` 3 makes no call of `ScrollTo` and
`reselectIndex` 15 makes the call `ScrollTo(15)`. -/
theorem OnTrackListRequeried_reselect_scroll_witness :
    (OnTrackListRequeried
      { layoutOf (List.replicate 20 "A") 0 with reselectIndex := 3 }).scrollCalls = [] ∧
    (OnTrackListRequeried
      { layoutOf (List.replicate 20 "A") 0 with reselectIndex := 15 }).scrollCalls
      = [] ++ [15] :=
  ⟨((OnTrackListRequeried_reselect_scroll
      { layoutOf (List.replicate 20 "A") 0 with reselectIndex := 3 } 3
      (by decide) rfl (by decide) (by decide)).2.1 (by decide)).1,
   ((OnTrackListRequeried_reselect_scroll
      { layoutOf (List.replicate 20 "A") 0 with reselectIndex := 15 } 15
      (by decide) rfl (by decide) (by decide)).2.2 (by decide)).1⟩

/-! ## Facts about the sliders -/

theorem thumbCell_ne_trackCell : thumbCell ≠ trackCell := by decide

theorem count_thumb_zero (n k : Nat) (hk : n ≤ k) :
    ((List.range n).map (fun i => if i = k then thumbCell else trackCell)).count thumbCell
      = 0 := by
  rw [List.count_eq_zero]
  intro hmem
  obtain ⟨i, hi, hcell⟩ := List.mem_map.mp hmem
  have hlt : i < n := List.mem_range.mp hi
  have hne : ¬ (i = k) := by omega
  rw [if_neg hne] at hcell
  exact thumbCell_ne_trackCell hcell.symm

/-- A row of `n` cells with the thumb at a position `k < n` has exactly one thumb cell. -/
theorem count_thumb_one (n k : Nat) (hk : k < n) :
    ((List.range n).map (fun i => if i = k then thumbCell else trackCell)).count thumbCell
      = 1 := by
  induction n with
  | zero => omega
  | succ n ih =>
    rw [List.range_succ, List.map_append, List.count_append]
    by_cases hkn : k < n
    · have hne : ¬ (n = k) := by omega
      rw [ih hkn]
      simp only [List.map_cons, List.map_nil, if_neg hne]
      decide
    · have heq : n = k := by omega
      rw [count_thumb_zero n k (by omega)]
      simp only [List.map_cons, List.map_nil, heq, if_true]
      decide

theorem getElem?_thumb (n k : Nat) (hk : k < n) :
    ((List.range n).map (fun i => if i = k then thumbCell else trackCell))[k]?
      = some thumbCell := by
  rw [List.getElem?_map, List.getElem?_range hk]
  simp

theorem length_timerTrack (width : Nat) (thumbOffset : Int) :
    (timerTrack width thumbOffset).length = width := by
  simp [timerTrack]

theorem volumeCells_eq (percent k : Nat) (hk : volumeThumbOffset percent = (k : Int)) :
    volumeCells percent
      = (List.range 10).map (fun i => if i = k then thumbCell else trackCell) := by
  unfold volumeCells
  rw [hk]
  apply List.map_congr_left
  intro i _
  simp only [Nat.cast_inj]

theorem volumeThumbOffset_eq (percent : Nat) (hp : percent ≤ 100) :
    volumeThumbOffset percent = (((percent - 1) / 10 : Nat) : Int) := by
  revert percent
  decide

/-- C13: for every rounded volume percentage `p` in 0..100 the volume bar built by `Update`
has ten cells of which exactly one is the thumb, at an index in `[0, 9]`; `p = 0` gives
index 0 (the `size_t` subtraction `p - 1` wraps and narrows to the `int` -1, and the
truncating division gives 0) and `p = 100` gives index 9. -/
theorem volume_thumb_bounds (p : Nat) (hp : p ≤ 100) :
    (volumeCells p).length = 10 ∧
    (volumeCells p).count thumbCell = 1 ∧
    0 ≤ volumeThumbOffset p ∧ volumeThumbOffset p ≤ 9 ∧
    (volumeCells p)[(volumeThumbOffset p).toNat]? = some thumbCell ∧
    volumePercent 0 = -1 ∧
    volumeThumbOffset 0 = 0 ∧
    volumeThumbOffset 100 = 9 ∧
    (∀ (Duration : Int → Str) (contentWidth : Nat) (secondsCurrent secondsTotal : Int),
      (Update Duration contentWidth p secondsCurrent secondsTotal).volume
        = "vol ".toList ++ volumeCells p ++ "  ".toList) := by
  have hk := volumeThumbOffset_eq p hp
  have hlt : (p - 1) / 10 < 10 := by omega
  refine ⟨by simp [volumeCells], ?_, by omega, by omega, ?_, by decide, by decide, by decide,
    fun _ _ _ _ => rfl⟩
  · rw [volumeCells_eq p _ hk]
    exact count_thumb_one 10 _ hlt
  · rw [volumeCells_eq p _ hk, hk, Int.toNat_ofNat]
    exact getElem?_thumb 10 _ hlt

/-- C13, at 50 percent: the bar reads `vol ────■─────` followed by two blanks. -/
theorem volume_thumb_bounds_witness :
    (volumeCells 50).count thumbCell = 1 ∧ volumeThumbOffset 50 = 4 ∧
    volumeText 50 = "vol ────■─────  ".toList :=
  ⟨(volume_thumb_bounds 50 (by decide)).2.1, by decide, by decide⟩

theorem toInt_of_range (x : Int) (h0 : 0 ≤ x) (h1 : x < 2147483648) : toInt x = x := by
  unfold toInt
  omega

/-- With a width that is positive and at most 2^31, so that every position of the track fits
an `int`, the thumb offset of the time slider is a position `k` of the track, namely `min(timerWidth - 1, (progress * timerWidth) / 100)`
when the total is non-zero and 0 otherwise. -/
theorem timeThumbOffset_eq (w : Nat) (e t : Int) (hw0 : 0 < w) (hw : w ≤ 2147483648) :
    ∃ k : Nat, k < w ∧ timeThumbOffset w e t = (k : Int) ∧
      k = (if t ≠ 0 then min (w - 1) ((progress e t * w) % SIZE_MOD / 100) else 0) := by
  have hsub : subSize w 1 = w - 1 := subSize_one w (by unfold SIZE_MOD; omega) hw0
  unfold timeThumbOffset
  by_cases ht : t ≠ 0
  · refine ⟨min (w - 1) ((progress e t * w) % SIZE_MOD / 100), by omega, ?_, by simp [ht]⟩
    rw [if_pos ht, hsub]
    exact toInt_natCast _ (by omega)
  · exact ⟨0, hw0, by simp [ht], by simp [ht]⟩

theorem timerTrack_natCast (w k : Nat) (hk : k < SIZE_MOD) :
    timerTrack w (k : Int)
      = (List.range w).map (fun i => if i = k then thumbCell else trackCell) := by
  unfold timerTrack
  rw [toSizeT_natCast k hk]

theorem progress_zero (t : Int) : progress 0 t = 0 := by
  unfold progress
  have h : toInt (0 * 100) = 0 := by decide
  rw [h, Int.zero_tdiv]
  decide

theorem progress_natCast (e t : Nat) (ht : 0 < t) (he : e * 100 < 2147483648) :
    progress (e : Int) (t : Int) = e * 100 / t := by
  unfold progress
  rw [toInt_of_range _ (by omega) (by omega),
    Int.tdiv_eq_ediv (by omega) (by omega)]
  have hcast : ((e : Int) * 100) / (t : Int) = ((e * 100 / t : Nat) : Int) := by
    push_cast
    rfl
  rw [hcast]
  have hle : e * 100 / t ≤ e * 100 := Nat.div_le_self _ _
  exact toSizeT_natCast _ (by unfold SIZE_MOD; omega)

theorem progress_le_hundred (e t : Nat) (ht : 0 < t) (het : e ≤ t)
    (he : e * 100 < 2147483648) : progress (e : Int) (t : Int) ≤ 100 := by
  rw [progress_natCast e t ht he]
  apply Nat.div_le_of_le_mul
  rw [Nat.mul_comm t 100]
  omega

/-- C14 as stated fails for widths and totals outside the range of `int`.  On a track of
2^31 + 1 cells with 1 of 1 seconds elapsed the thumb offset, narrowed to `int`, is -2^31 and
no cell of the track is the thumb.  At content width 20 the code itself computes the width
2^64 - 6, and with 60 of 60 seconds elapsed the thumb is not at the last cell.  And on a
track of 20 cells with 42949673 of 42949673 seconds elapsed the product
`secondsCurrent * 100` leaves the range of `int`, the progress is 0 and the thumb is at cell
0, not at cell 19. -/
theorem timer_thumb_outside_int_range :
    timeThumbOffset 2147483649 1 1 = -2147483648 ∧
    (timerTrack 2147483649 (timeThumbOffset 2147483649 1 1)).length = 2147483649 ∧
    (timerTrack 2147483649 (timeThumbOffset 2147483649 1 1)).count thumbCell = 0 ∧
    (Update (fun _ => "0:00".toList) 20 50 60 60).timerWidth = 18446744073709551610 ∧
    (Update (fun _ => "0:00".toList) 20 50 60 60).thumbOffset = -171798698 ∧
    toSizeT (Update (fun _ => "0:00".toList) 20 50 60 60).thumbOffset
      ≠ (Update (fun _ => "0:00".toList) 20 50 60 60).timerWidth - 1 ∧
    progress 42949673 42949673 = 0 ∧
    timeThumbOffset 20 42949673 42949673 = 0 ∧
    timeThumbOffset 20 42949673 42949673 ≠ ((20 : Nat) : Int) - 1 := by
  have hk : toSizeT (timeThumbOffset 2147483649 1 1) = 18446744071562067968 := by decide
  refine ⟨by decide, length_timerTrack _ _, ?_, by decide, by decide, by decide, by decide,
    by decide, by decide⟩
  unfold timerTrack
  rw [hk]
  exact count_thumb_zero 2147483649 18446744071562067968 (by decide)

/-- C14, amended: for every time-slider width `0 < w <= 2^31` (so that every cell index fits
the `int` `thumbOffset`) and all seconds values, the time track built by `Update` has
exactly `w` cells of which exactly one is the thumb, at the index `thumbOffset`, which is in
`[0, w - 1]`; the index is 0 when the elapsed seconds are 0 and when the total is 0 (no
division is made then), and it is `w - 1` when the elapsed seconds equal a total `> 0` with
`total * 100 < 2^31` (the `int` product does not overflow). -/
theorem timer_thumb_bounds (w : Nat) (e t : Int) (hw0 : 0 < w) (hw : w ≤ 2147483648) :
    (timerTrack w (timeThumbOffset w e t)).length = w ∧
    (timerTrack w (timeThumbOffset w e t)).count thumbCell = 1 ∧
    0 ≤ timeThumbOffset w e t ∧ timeThumbOffset w e t ≤ (w : Int) - 1 ∧
    (timerTrack w (timeThumbOffset w e t))[(timeThumbOffset w e t).toNat]? = some thumbCell ∧
    (e = 0 → timeThumbOffset w e t = 0) ∧
    (t = 0 → timeThumbOffset w e t = 0) ∧
    (e = t → 0 < t → t * 100 < 2147483648 → timeThumbOffset w e t = (w : Int) - 1) ∧
    (∀ (Duration : Int → Str) (contentWidth percent : Nat),
      (Update Duration contentWidth percent e t).timerTrack
        = timerTrack (Update Duration contentWidth percent e t).timerWidth
            (timeThumbOffset (Update Duration contentWidth percent e t).timerWidth e t)) := by
  obtain ⟨k, hk, hoff, hval⟩ := timeThumbOffset_eq w e t hw0 hw
  have htrack := timerTrack_natCast w k (by unfold SIZE_MOD; omega)
  refine ⟨length_timerTrack _ _, ?_, by omega, by omega, ?_, ?_, ?_, ?_,
    fun _ _ _ => by simp only [Update]⟩
  · rw [hoff, htrack]
    exact count_thumb_one w k hk
  · rw [hoff, htrack, Int.toNat_ofNat]
    exact getElem?_thumb w k hk
  · intro he
    rw [hoff, hval, he, progress_zero]
    split_ifs <;> simp
  · intro ht
    rw [hoff, hval]
    simp [ht]
  · intro het htpos hrange
    have htne : t ≠ 0 := by omega
    obtain ⟨n, hn⟩ := Int.eq_ofNat_of_zero_le (Int.le_of_lt htpos)
    have hprog : progress e t = 100 := by
      rw [het, hn, progress_natCast n n (by omega) (by omega)]
      exact Nat.mul_div_cancel_left 100 (by omega)
    rw [hoff, hval, if_pos htne, hprog]
    have hmod : (100 * w) % SIZE_MOD / 100 = w := by
      unfold SIZE_MOD
      omega
    rw [hmod]
    omega

/-- C14 amended, on a track of 20 cells: the thumb is at cell 0 with 0 of 60 seconds elapsed, at cell
10 with 30 of 60, and at cell 19 with 60 of 60. -/
theorem timer_thumb_bounds_witness :
    (timerTrack 20 (timeThumbOffset 20 30 60)).count thumbCell = 1 ∧
    timeThumbOffset 20 0 60 = 0 ∧ timeThumbOffset 20 30 60 = 10 ∧
    timeThumbOffset 20 60 60 = 20 - 1 :=
  ⟨(timer_thumb_bounds 20 30 60 (by decide) (by decide)).2.1,
   (timer_thumb_bounds 20 0 60 (by decide) (by decide)).2.2.2.2.2.1 rfl,
   by decide,
   (timer_thumb_bounds 20 60 60 (by decide) (by decide)).2.2.2.2.2.2.2.1 rfl (by norm_num)
     (by norm_num)⟩

/-- C15 as stated fails for both sliders: at 10 percent the volume thumb is at cell 0 where
`min(9, floor(10 * 10 / 100))` is 1, and with 1 of 3 seconds elapsed on a track of 3 cells
the time thumb is at cell 0 where `min(3 - 1, floor(1 * 3 / 3))` is 1.  Outside the range of
`int` it fails as well: with 30000000 of 40000000 seconds elapsed on 20 cells the product
`secondsCurrent * 100` overflows and the thumb is at cell 19 where
`min(19, floor(30000000 * 20 / 40000000))` is 15, and on a track of 2^31 + 1 cells with 1 of
1 seconds elapsed the thumb offset is -2^31 where `min(2^31, floor(1 * (2^31 + 1) / 1))` is
2^31. -/
theorem thumb_is_not_floor_of_fraction :
    volumeThumbOffset 10 = 0 ∧ min 9 (10 * 10 / 100) = 1 ∧
    volumeThumbOffset 10 ≠ ((min 9 (10 * 10 / 100) : Nat) : Int) ∧
    timeThumbOffset 3 1 3 = 0 ∧ min (3 - 1) (1 * 3 / 3) = 1 ∧
    timeThumbOffset 3 1 3 ≠ ((min (3 - 1) (1 * 3 / 3) : Nat) : Int) ∧
    timeThumbOffset 20 30000000 40000000 = 19 ∧
    min (20 - 1) (30000000 * 20 / 40000000) = 15 ∧
    min (20 - 1) ((30000000 * 100 / 40000000) * 20 / 100) = 15 ∧
    timeThumbOffset 2147483649 1 1 = -2147483648 ∧
    min (2147483649 - 1) (1 * 2147483649 / 1) = 2147483648 := by
  decide

/-- C15, amended: for every volume percentage `p` in 0..100 the volume thumb index is
`min(9, ((p - 1) * 10) / 100)` with the truncating division of `int`, that is 0 for `p = 0`
and `floor((p - 1) / 10)` otherwise; and for every width `0 < w <= 2^31` and seconds
`0 <= elapsed <= total` with `total > 0` and `elapsed * 100 < 2^31` (the `int` product does
not overflow) the progress is the whole percentage `floor(elapsed * 100 / total)` and the
time thumb index is `min(w - 1, floor(progress * w / 100))`. -/
theorem thumb_offsets_exact (p w e t : Nat) (hp : p ≤ 100) (hw0 : 0 < w)
    (hw : w ≤ 2147483648) (het : e ≤ t) (ht : 0 < t) (he : e * 100 < 2147483648) :
    volumeThumbOffset p = min 9 (Int.tdiv (((p : Int) - 1) * 10) 100) ∧
    volumeThumbOffset p = (((p - 1) / 10 : Nat) : Int) ∧
    progress (e : Int) (t : Int) = e * 100 / t ∧
    timeThumbOffset w (e : Int) (t : Int)
      = ((min (w - 1) ((e * 100 / t) * w / 100) : Nat) : Int) := by
  refine ⟨?_, volumeThumbOffset_eq p hp, progress_natCast e t ht he, ?_⟩
  · revert p
    decide
  · obtain ⟨k, hk, hoff, hval⟩ := timeThumbOffset_eq w (e : Int) (t : Int) hw0 hw
    have htne : (t : Int) ≠ 0 := by omega
    have hle := progress_le_hundred e t ht het he
    rw [progress_natCast e t ht he] at hle
    have hmul : e * 100 / t * w ≤ 100 * w := Nat.mul_le_mul_right w hle
    have hmod : (e * 100 / t * w) % SIZE_MOD = e * 100 / t * w :=
      Nat.mod_eq_of_lt (by unfold SIZE_MOD; omega)
    rw [hoff, hval, if_pos htne, progress_natCast e t ht he, hmod]

/-- C15 amended, at 10 percent and at 1 of 3 seconds on 3 cells (both thumbs at cell 0), and
at 55 percent and 30 of 60 seconds on 20 cells. -/
theorem thumb_offsets_exact_witness :
    volumeThumbOffset 10 = (((10 - 1) / 10 : Nat) : Int) ∧
    timeThumbOffset 3 ((1 : Nat) : Int) ((3 : Nat) : Int)
      = ((min (3 - 1) ((1 * 100 / 3) * 3 / 100) : Nat) : Int) ∧
    timeThumbOffset 20 ((30 : Nat) : Int) ((60 : Nat) : Int)
      = ((min (20 - 1) ((30 * 100 / 60) * 20 / 100) : Nat) : Int) :=
  ⟨(thumb_offsets_exact 10 3 1 3 (by decide) (by decide) (by decide) (by decide) (by decide)
      (by decide)).2.1,
   (thumb_offsets_exact 10 3 1 3 (by decide) (by decide) (by decide) (by decide) (by decide)
      (by decide)).2.2.2,
   (thumb_offsets_exact 55 20 30 60 (by decide) (by decide) (by decide) (by decide)
      (by decide) (by decide)).2.2.2⟩

/-- C16: when the content width is smaller than what the volume block and the two time texts
need, `timerWidth` wraps around.  With a content width of 20 and the texts `0:00` and `0:00`
the code computes 20 - 16 - 4 - 4 - 2 in `size_t`, which is 2^64 - 6, and the time track has
that many cells instead of none; only a content width of exactly 26 gives an empty track. -/
theorem timerWidth_wraps :
    u8len (volumeText 50) = 16 ∧
    (Update (fun _ => "0:00".toList) 20 50 30 60).timerWidth = 18446744073709551610 ∧
    (Update (fun _ => "0:00".toList) 20 50 30 60).timerTrack.length
      = 18446744073709551610 ∧
    (Update (fun _ => "0:00".toList) 26 50 30 60).timerTrack = [] := by
  have hw : (Update (fun _ => "0:00".toList) 20 50 30 60).timerWidth
      = 18446744073709551610 := by decide
  have hlen : (Update (fun _ => "0:00".toList) 20 50 30 60).timerTrack.length
      = (Update (fun _ => "0:00".toList) 20 50 30 60).timerWidth := by
    simp only [Update]
    exact length_timerTrack _ _
  refine ⟨by decide, hw, ?_, by decide⟩
  rw [hlen, hw]

/-- C18 as stated fails: with 10 seconds elapsed of a total of 5 the formatted value is 5,
but the progress percentage the thumb is computed from is 200.  Even with the elapsed
seconds below the total the progress can exceed 100: with 30000000 of 40000000 seconds the
product `secondsCurrent * 100` overflows `int` and the progress is 2^64 - 32.  And on a
track of 2^31 + 1 cells with 1 of 1 seconds elapsed the thumb offset is -2^31. -/
theorem progress_exceeds_hundred :
    (Update (fun _ => "0:00".toList) 46 50 10 5).elapsed = 5 ∧
    progress 10 5 = 200 ∧
    ¬ (progress 10 5 ≤ 100) ∧
    (Update (fun _ => "0:00".toList) 46 50 10 5).thumbOffset = 19 ∧
    progress 30000000 40000000 = 18446744073709551584 ∧
    ¬ (progress 30000000 40000000 ≤ 100) ∧
    timeThumbOffset 2147483649 1 1 = -2147483648 := by
  decide

/-- C18, amended: for all seconds values the elapsed value that `Update` formats is
`min(elapsed, total)`; the progress percentage is computed from the elapsed seconds as they
are, and it is at most 100 when `0 <= elapsed <= total` with `total > 0` and
`elapsed * 100 < 2^31` (the `int` product does not overflow); and whatever the progress, on
a track of `0 < w <= 2^31` cells the thumb index computed from it is in `[0, w - 1]`. -/
theorem elapsed_clamped_thumb_bounded (Duration : Int → Str) (contentWidth percent w : Nat)
    (secondsCurrent secondsTotal : Int) (hw0 : 0 < w) (hw : w ≤ 2147483648) :
    (Update Duration contentWidth percent secondsCurrent secondsTotal).elapsed
      = min secondsCurrent secondsTotal ∧
    (Update Duration contentWidth percent secondsCurrent secondsTotal).currentTime
      = Duration (min secondsCurrent secondsTotal) ∧
    (0 ≤ secondsCurrent → secondsCurrent ≤ secondsTotal → 0 < secondsTotal →
      secondsCurrent * 100 < 2147483648 → progress secondsCurrent secondsTotal ≤ 100) ∧
    0 ≤ timeThumbOffset w secondsCurrent secondsTotal ∧
    timeThumbOffset w secondsCurrent secondsTotal ≤ (w : Int) - 1 := by
  obtain ⟨k, hk, hoff, _⟩ := timeThumbOffset_eq w secondsCurrent secondsTotal hw0 hw
  refine ⟨by simp only [Update], by simp only [Update], ?_, by omega, by omega⟩
  intro h0 hle hpos hrange
  obtain ⟨e, he⟩ := Int.eq_ofNat_of_zero_le h0
  obtain ⟨t, ht⟩ := Int.eq_ofNat_of_zero_le (Int.le_of_lt hpos)
  rw [he, ht]
  exact progress_le_hundred e t (by omega) (by omega) (by omega)

/-- C18 amended, with 70 seconds elapsed of a total of 60 on a track of 20 cells: the value
formatted is 60 and the thumb is at the last cell; with 30 of 60 the progress is 50. -/
theorem elapsed_clamped_thumb_bounded_witness :
    (Update (fun _ => "0:00".toList) 46 50 70 60).elapsed = min 70 60 ∧
    timeThumbOffset 20 70 60 ≤ ((20 : Nat) : Int) - 1 ∧
    progress 30 60 ≤ 100 :=
  ⟨(elapsed_clamped_thumb_bounded (fun _ => "0:00".toList) 46 50 20 70 60 (by decide)
      (by decide)).1,
   (elapsed_clamped_thumb_bounded (fun _ => "0:00".toList) 46 50 20 70 60 (by decide)
      (by decide)).2.2.2.2,
   (elapsed_clamped_thumb_bounded (fun _ => "0:00".toList) 46 50 20 30 60 (by decide)
      (by decide)).2.2.1 (by norm_num) (by norm_num) (by norm_num) (by norm_num)⟩

/-! ## Facts about the refresh messages -/

/-- After `DEBOUNCE_REFRESH(x)` the one pending refresh message is the one just posted. -/
theorem pendingRefresh_DEBOUNCE_REFRESH (s : TransportWindow) (x : Nat) :
    pendingRefresh (DEBOUNCE_REFRESH s x) = [⟨REFRESH_TRANSPORT_READOUT, x⟩] := by
  have hnil : List.filter (fun message : Message =>
      decide (message.type = REFRESH_TRANSPORT_READOUT))
      (List.filter (fun message : Message =>
        decide (message.type ≠ REFRESH_TRANSPORT_READOUT)) s.messages) = [] := by
    rw [List.filter_eq_nil_iff]
    intro message hmem
    have := (List.mem_filter.mp hmem).2
    simpa using this
  simp only [pendingRefresh, DEBOUNCE_REFRESH, PostMessage, RemoveMessage, List.filter_append,
    hnil, List.nil_append]
  rfl

theorem updates_DEBOUNCE_REFRESH (s : TransportWindow) (x : Nat) :
    (DEBOUNCE_REFRESH s x).updates = s.updates := rfl

theorem pendingRefresh_trigger (s : TransportWindow) (event : Event)
    (htrigger : event.isTrigger = true) :
    pendingRefresh (step s event) = [⟨REFRESH_TRANSPORT_READOUT, 0⟩] ∧
    (step s event).updates = s.updates := by
  cases event with
  | delivered k => cases htrigger
  | trackChanged => exact ⟨pendingRefresh_DEBOUNCE_REFRESH _ _, rfl⟩
  | volumeChanged => exact ⟨pendingRefresh_DEBOUNCE_REFRESH _ _, rfl⟩
  | timeChanged => exact ⟨pendingRefresh_DEBOUNCE_REFRESH _ _, rfl⟩
  | focus => exact ⟨pendingRefresh_DEBOUNCE_REFRESH _ _, rfl⟩
  | blur => exact ⟨pendingRefresh_DEBOUNCE_REFRESH _ _, rfl⟩

theorem ProcessMessage_refresh (s : TransportWindow) (message : Message)
    (htype : message.type = REFRESH_TRANSPORT_READOUT) :
    pendingRefresh (ProcessMessage s message)
      = [⟨REFRESH_TRANSPORT_READOUT, REFRESH_INTERVAL_MS⟩] ∧
    (ProcessMessage s message).updates = s.updates + 1 := by
  unfold ProcessMessage
  rw [if_pos htype]
  exact ⟨pendingRefresh_DEBOUNCE_REFRESH _ _, rfl⟩

theorem pendingRefresh_eraseIdx_le (s : TransportWindow) (k : Nat) :
    (pendingRefresh { s with messages := s.messages.eraseIdx k }).length
      ≤ (pendingRefresh s).length := by
  unfold pendingRefresh
  exact ((List.eraseIdx_sublist s.messages k).filter _).length_le

theorem pendingRefresh_step_le (s : TransportWindow) (event : Event)
    (hs : (pendingRefresh s).length ≤ 1) : (pendingRefresh (step s event)).length ≤ 1 := by
  by_cases htrigger : event.isTrigger = true
  · rw [(pendingRefresh_trigger s event htrigger).1]
    exact Nat.le_refl 1
  · cases event with
    | delivered k =>
      simp only [step, deliver]
      split
      · next message _ =>
        by_cases htype : message.type = REFRESH_TRANSPORT_READOUT
        · rw [(ProcessMessage_refresh _ message htype).1]
          exact Nat.le_refl 1
        · unfold ProcessMessage
          rw [if_neg htype]
          exact Nat.le_trans (pendingRefresh_eraseIdx_le s k) hs
      · exact hs
    | trackChanged => exact absurd rfl htrigger
    | volumeChanged => exact absurd rfl htrigger
    | timeChanged => exact absurd rfl htrigger
    | focus => exact absurd rfl htrigger
    | blur => exact absurd rfl htrigger

theorem pendingRefresh_run_le (events : List Event) (s : TransportWindow)
    (hs : (pendingRefresh s).length ≤ 1) : (pendingRefresh (run s events)).length ≤ 1 := by
  induction events generalizing s with
  | nil => exact hs
  | cons event rest ih =>
    simp only [run, List.foldl_cons]
    exact ih (step s event) (pendingRefresh_step_le s event hs)

/-- C17: with the message queue as explicit state, a window with at most one pending
`REFRESH_TRANSPORT_READOUT` message still has at most one after any sequence of refresh
triggers (track changed, volume changed, time changed, `Focus`, `Blur`) and deliveries of
pending messages; after any trigger there is exactly one, posted with delay 0, and after a
processed refresh exactly one, posted with `REFRESH_INTERVAL_MS` = 500.  So after three
triggers in a row no `Update` has been called and one refresh message is pending, and the
delivery of that message makes exactly one call of `Update` and leaves only the re-armed
message. -/
theorem refresh_is_debounced (s : TransportWindow) :
    (∀ events : List Event,
      (pendingRefresh s).length ≤ 1 → (pendingRefresh (run s events)).length ≤ 1) ∧
    (∀ event : Event, event.isTrigger = true →
      pendingRefresh (step s event) = [⟨REFRESH_TRANSPORT_READOUT, 0⟩]) ∧
    (∀ message : Message, message.type = REFRESH_TRANSPORT_READOUT →
      pendingRefresh (ProcessMessage s message) = [⟨REFRESH_TRANSPORT_READOUT, 500⟩] ∧
      (ProcessMessage s message).updates = s.updates + 1) ∧
    (∀ e1 e2 e3 : Event, e1.isTrigger = true → e2.isTrigger = true → e3.isTrigger = true →
      (run s [e1, e2, e3]).updates = s.updates ∧
      pendingRefresh (run s [e1, e2, e3]) = [⟨REFRESH_TRANSPORT_READOUT, 0⟩] ∧
      ∀ k : Nat, (run s [e1, e2, e3]).messages[k]? = some ⟨REFRESH_TRANSPORT_READOUT, 0⟩ →
        (deliver (run s [e1, e2, e3]) k).updates = s.updates + 1 ∧
        pendingRefresh (deliver (run s [e1, e2, e3]) k)
          = [⟨REFRESH_TRANSPORT_READOUT, 500⟩]) := by
  refine ⟨fun events hs => pendingRefresh_run_le events s hs,
    fun event htrigger => (pendingRefresh_trigger s event htrigger).1,
    fun message htype => ProcessMessage_refresh s message htype, ?_⟩
  intro e1 e2 e3 h1 h2 h3
  have hrun : run s [e1, e2, e3] = step (step (step s e1) e2) e3 := rfl
  have hupd : (run s [e1, e2, e3]).updates = s.updates := by
    rw [hrun, (pendingRefresh_trigger _ e3 h3).2, (pendingRefresh_trigger _ e2 h2).2,
      (pendingRefresh_trigger _ e1 h1).2]
  refine ⟨hupd, ?_, ?_⟩
  · rw [hrun]
    exact (pendingRefresh_trigger _ e3 h3).1
  · intro k hk
    unfold deliver
    rw [hk]
    have hproc := ProcessMessage_refresh
      { run s [e1, e2, e3] with messages := (run s [e1, e2, e3]).messages.eraseIdx k }
      ⟨REFRESH_TRANSPORT_READOUT, 0⟩ rfl
    refine ⟨?_, hproc.1⟩
    rw [hproc.2]
    exact congrArg (· + 1) hupd

/-- C17, from a window with nothing pending: a focus change, a volume change and a time
change leave one refresh message with delay 0 and no call of `Update`; delivering it calls
`Update` once and leaves the one message re-armed at 500 ms. -/
theorem refresh_is_debounced_witness :
    run ⟨[], false, 0⟩ [Event.focus, Event.volumeChanged, Event.timeChanged]
      = ⟨[⟨1001, 0⟩], true, 0⟩ ∧
    run ⟨[], false, 0⟩
      [Event.focus, Event.volumeChanged, Event.timeChanged, Event.delivered 0]
      = ⟨[⟨1001, 500⟩], true, 1⟩ ∧
    pendingRefresh
      (run ⟨[], false, 0⟩ [Event.focus, Event.volumeChanged, Event.timeChanged])
      = [⟨REFRESH_TRANSPORT_READOUT, 0⟩] :=
  ⟨by decide, by decide,
   ((refresh_is_debounced ⟨[], false, 0⟩).2.2.2 Event.focus Event.volumeChanged
      Event.timeChanged rfl rfl rfl).2.1⟩

/-! ## The shape of the tokens -/

theorem getElem?_eq_charAt (format : Str) (k : Nat) (hk : k < format.length) :
    format[k]? = some (charAt format k) := by
  unfold charAt
  rw [List.getD_eq_getElem?_getD, List.getElem?_eq_getElem hk]
  rfl

theorem head?_substr (format : Str) (pos len : Nat) (hpos : pos < format.length)
    (hlen : 0 < len) : (substr format pos len).head? = some (charAt format pos) := by
  unfold substr
  rw [List.head?_take, if_neg (by omega), List.head?_drop]
  exact getElem?_eq_charAt format pos hpos

theorem mem_substr (format : Str) (pos len : Nat) (c : Char)
    (hmem : c ∈ substr format pos len) :
    ∃ k, pos ≤ k ∧ k < pos + len ∧ c = charAt format k := by
  obtain ⟨n, hn⟩ := List.mem_iff_getElem?.mp hmem
  unfold substr at hn
  rw [List.getElem?_take] at hn
  split_ifs at hn with hlt
  rw [List.getElem?_drop] at hn
  have hin : pos + n < format.length := by
    by_contra hcon
    rw [List.getElem?_eq_none (by omega)] at hn
    cases hn
  rw [getElem?_eq_charAt format _ hin] at hn
  exact ⟨pos + n, by omega, by omega, (Option.some.inj hn).symm⟩

theorem wellFormed_push (tokens : List Token) (token : Token) (hwf : WellFormed tokens)
    (hok : TokenOk token) (hlast : ∀ a ∈ tokens.getLast?, Alternates a token) :
    WellFormed (tokens ++ [token]) := by
  refine ⟨?_, ?_⟩
  · intro t ht
    rcases List.mem_append.mp ht with hold | hnew
    · exact hwf.1 t hold
    · rw [List.mem_singleton.mp hnew]
      exact hok
  · rw [List.chain'_append]
    refine ⟨hwf.2, List.chain'_singleton _, ?_⟩
    intro x hx y hy
    simp only [List.head?_cons, Option.mem_def, Option.some.injEq] at hy
    rw [← hy]
    exact hlast x hx

/-- The token made of the current run can be pushed: it is as `TokenOk` asks and it
alternates with the last token pushed before it. -/
theorem shape_push (format : Str) (s : TokenizeState) (hinv : TokenizeInv format s)
    (hshape : TokenizeShape format s) (hlt : s.start < s.i) :
    WellFormed (s.tokens ++ [⟨substr format s.start (s.i - s.start), s.type⟩]) := by
  have hi := hinv.i_le
  apply wellFormed_push _ _ hshape.wellFormed
  · refine ⟨substr_ne_nil format _ _ (by omega) (by omega), ?_⟩
    intro hP
    obtain ⟨_, hdollar, hnospace⟩ := hshape.placeholder hP
    refine ⟨?_, ?_⟩
    · show (substr format s.start (s.i - s.start)).head? = some '$'
      rw [head?_substr format _ _ (by omega) (by omega), hdollar]
    · intro hmem
      obtain ⟨k, hk1, hk2, hk3⟩ := mem_substr format _ _ _ hmem
      exact hnospace k hk1 (by omega) hk3.symm
  · intro a ha
    refine ⟨hshape.last a ha, ?_⟩
    intro hP
    have hne : s.tokens ≠ [] := by
      intro hnil
      rw [hnil] at ha
      cases ha
    have htype : s.type = TokenType.Normal := by
      have := hshape.last a ha
      rw [hP] at this
      cases hs : s.type with
      | Normal => rfl
      | Placeholder => exact absurd hs.symm this
    show (substr format s.start (s.i - s.start)).head? = some ' '
    rw [head?_substr format _ _ (by omega) (by omega), hshape.normal htype hne]

theorem tokenizeShape_init (format : Str) : TokenizeShape format tokenizeInit where
  wellFormed := ⟨by simp [tokenizeInit], by simp [tokenizeInit]⟩
  last := by simp [tokenizeInit]
  fresh := fun _ => rfl
  placeholder := fun h => by cases h
  normal := fun _ h => absurd rfl h

theorem getLast?_push (tokens : List Token) (token : Token) :
    (tokens ++ [token]).getLast? = some token := by
  simp

theorem tokenizeStep_skip (format : Str) (s : TokenizeState)
    (hA : ¬ ((s.type = TokenType.Placeholder ∧ charAt format s.i = ' ') ∨
      (s.type = TokenType.Normal ∧ charAt format s.i = '$'))) :
    tokenizeStep format s = { s with i := s.i + 1 } := by
  unfold tokenizeStep
  dsimp only
  rw [if_neg hA]

theorem tokenizeStep_escape (format : Str) (s : TokenizeState)
    (hA : (s.type = TokenType.Placeholder ∧ charAt format s.i = ' ') ∨
      (s.type = TokenType.Normal ∧ charAt format s.i = '$'))
    (hB : charAt format s.i = '$' ∧ s.i < format.length - 1 ∧
      charAt format (s.i + 1) = '$') :
    tokenizeStep format s = { s with i := s.i + 1 + 1 } := by
  unfold tokenizeStep
  dsimp only
  rw [if_pos hA, if_pos hB]

theorem tokenizeStep_split (format : Str) (s : TokenizeState)
    (hA : (s.type = TokenType.Placeholder ∧ charAt format s.i = ' ') ∨
      (s.type = TokenType.Normal ∧ charAt format s.i = '$'))
    (hB : ¬ (charAt format s.i = '$' ∧ s.i < format.length - 1 ∧
      charAt format (s.i + 1) = '$')) :
    tokenizeStep format s =
      { i := s.i + 1
        start := s.i
        type := if charAt format s.i = ' ' then TokenType.Normal else TokenType.Placeholder
        tokens :=
          if s.i > s.start then
            s.tokens ++ [⟨substr format s.start (s.i - s.start), s.type⟩]
          else s.tokens } := by
  unfold tokenizeStep
  dsimp only
  rw [if_pos hA, if_neg hB]

theorem tokenizeShape_step (format : Str) (s : TokenizeState) (hinv : TokenizeInv format s)
    (hshape : TokenizeShape format s) :
    TokenizeShape format (tokenizeStep format s) := by
  have hdollar : ¬ ('$' = ' ') := by decide
  by_cases hA : (s.type = TokenType.Placeholder ∧ charAt format s.i = ' ') ∨
      (s.type = TokenType.Normal ∧ charAt format s.i = '$')
  · by_cases hB : charAt format s.i = '$' ∧ s.i < format.length - 1 ∧
        charAt format (s.i + 1) = '$'
    · rw [tokenizeStep_escape format s hA hB]
      have hN : s.type = TokenType.Normal := by
        rcases hA with ⟨_, hc⟩ | ⟨hN, _⟩
        · rw [hB.1] at hc
          exact absurd hc hdollar
        · exact hN
      exact
        { wellFormed := hshape.wellFormed
          last := hshape.last
          fresh := fun h => by simp at h
          placeholder := fun hP => by
            rw [hN] at hP
            cases hP
          normal := hshape.normal }
    · rw [tokenizeStep_split format s hA hB]
      rcases hA with ⟨hP, hc⟩ | ⟨hN, hc⟩
      · have hlt : s.start < s.i := (hshape.placeholder hP).1
        have hpush := shape_push format s hinv hshape hlt
        simp only [hc, if_true, gt_iff_lt, hlt]
        exact
          { wellFormed := hpush
            last := fun token htoken => by
              rw [getLast?_push] at htoken
              rw [← Option.some.inj htoken, hP]
              exact fun h => by cases h
            fresh := fun h => by simp at h
            placeholder := fun h => by cases h
            normal := fun _ _ => hc }
      · have hns : ¬ (charAt format s.i = ' ') := by
          rw [hc]
          exact hdollar
        simp only [hns, if_false]
        by_cases hlt : s.start < s.i
        · have hpush := shape_push format s hinv hshape hlt
          simp only [gt_iff_lt, hlt, if_true]
          exact
            { wellFormed := hpush
              last := fun token htoken => by
                rw [getLast?_push] at htoken
                rw [← Option.some.inj htoken, hN]
                exact fun h => by cases h
              fresh := fun h => by simp at h
              placeholder := fun _ => ⟨by simp, hc, fun k hk1 hk2 => by
                have hk : k = s.i := by
                  simp only at hk1 hk2
                  omega
                rw [hk, hc]
                exact hdollar⟩
              normal := fun h => by cases h }
        · have hi0 : s.i = 0 := by
            rcases hinv.started with h | h
            · exact absurd h hlt
            · exact h
          have hnil : s.tokens = [] := hshape.fresh hi0
          simp only [gt_iff_lt, hlt, if_false]
          exact
            { wellFormed := hshape.wellFormed
              last := fun token htoken => by
                rw [hnil] at htoken
                cases htoken
              fresh := fun h => by simp at h
              placeholder := fun _ => ⟨by simp, hc, fun k hk1 hk2 => by
                have hk : k = s.i := by
                  simp only at hk1 hk2
                  omega
                rw [hk, hc]
                exact hdollar⟩
              normal := fun h => by cases h }
  · rw [tokenizeStep_skip format s hA]
    exact
      { wellFormed := hshape.wellFormed
        last := hshape.last
        fresh := fun h => by simp at h
        placeholder := fun hP => by
          obtain ⟨h1, h2, h3⟩ := hshape.placeholder hP
          refine ⟨by simp only; omega, h2, ?_⟩
          intro k hk1 hk2
          by_cases hk : k < s.i
          · exact h3 k hk1 hk
          · have hki : k = s.i := by
              simp only at hk2
              omega
            rw [hki]
            intro hspace
            exact hA (Or.inl ⟨hP, hspace⟩)
        normal := hshape.normal }

theorem tokenizeShape_loop (format : Str) (fuel : Nat) (s : TokenizeState)
    (hinv : TokenizeInv format s) (hshape : TokenizeShape format s) :
    TokenizeShape format (tokenizeLoop format fuel s) := by
  induction fuel generalizing s with
  | zero => exact hshape
  | succ fuel ih =>
    unfold tokenizeLoop
    split_ifs with hlt
    · exact ih _ (tokenizeInv_step format s hinv hlt) (tokenizeShape_step format s hinv hshape)
    · exact hshape

theorem tokenize_wellFormed (format : Str) : WellFormed (tokenize format) := by
  obtain ⟨hinv, hi⟩ := tokenize_final format
  have hshape := tokenizeShape_loop format format.length tokenizeInit
    (tokenizeInv_init format) (tokenizeShape_init format)
  unfold tokenize
  dsimp only
  split_ifs with hpos
  · have hlt : (tokenizeLoop format format.length tokenizeInit).start
        < (tokenizeLoop format format.length tokenizeInit).i := by
      rcases hinv.started with h | h
      · exact h
      · omega
    exact shape_push format _ hinv hshape hlt
  · exact hshape.wellFormed

/-- C20: for every format string the token list produced by `tokenize` is well formed: every
token text is non-empty; consecutive tokens alternate between `Normal` and `Placeholder`;
every `Placeholder` token starts with `$` and contains no space; and every token that
follows a `Placeholder` (a `Normal` token, then) starts with a space. -/
theorem tokenize_tokens_wellFormed (format : Str) :
    (∀ token ∈ tokenize format, token.value ≠ []) ∧
    List.Chain' (fun a b : Token => a.type ≠ b.type) (tokenize format) ∧
    (∀ token ∈ tokenize format, token.type = TokenType.Placeholder →
      token.value.head? = some '$' ∧ ' ' ∉ token.value) ∧
    List.Chain' (fun a b : Token => a.type = TokenType.Placeholder →
      b.type = TokenType.Normal ∧ b.value.head? = some ' ') (tokenize format) := by
  have hwf := tokenize_wellFormed format
  refine ⟨fun token h => (hwf.1 token h).1, ?_, fun token h => (hwf.1 token h).2, ?_⟩
  · exact hwf.2.imp (fun _ _ h => h.1)
  · refine hwf.2.imp ?_
    intro a b hab hP
    refine ⟨?_, hab.2 hP⟩
    have hne := hab.1
    rw [hP] at hne
    cases hb : b.type with
    | Normal => rfl
    | Placeholder => exact absurd hb.symm hne

end Musikbox
